import Mathlib

/-!
Verification development for the wso2-workflows repository.

The repository holds two Python command-line tools:

* src/extract_api_properties.py — reads a parsed api.yaml document, walks the
  nested path data -> additionalProperties, and collects name/value records
  into a flat property dictionary, rendered in one of several output formats.
* src/validate_properties.py — loads a rule document and a JSON properties
  file, validates each property against the rules, and exits 0 exactly when
  the overall verdict is valid.

The definitions below are a shallow embedding of those scripts.  Parsed YAML
documents are modelled by the inductive type Yaml (YAML floats are not used by
any claim and are omitted; mapping keys are modelled as strings, which covers
every document shape the claims quantify over).  Python dictionaries are
modelled as association lists with insert-or-overwrite-in-place semantics,
which is exactly the observable behaviour of an insertion-ordered dict.
Python exceptions are modelled with Except; a process-terminating failure
carries its exit code, the stream the diagnostic was printed to, and the
message text.
-/

namespace WsoTwo

/-- Association-list lookup: first binding wins, as in a Python dict
(whose keys are unique, so first = only). -/
def alookup {α β : Type} [DecidableEq α] : List (α × β) → α → Option β
  | [], _ => none
  | (k, v) :: rest, key => if k = key then some v else alookup rest key

/-- Key-membership test on an association list; models the Python
expression key in d for a dict d. -/
def hasKey {α β : Type} [DecidableEq α] (l : List (α × β)) (key : α) : Bool :=
  (alookup l key).isSome

/-- Insert-or-overwrite on an association list, keeping the position of an
existing key: models d[key] = v on an insertion-ordered Python dict. -/
def setAssoc {α β : Type} [DecidableEq α] : List (α × β) → α → β → List (α × β)
  | [], key, v => [(key, v)]
  | (k, w) :: rest, key, v =>
    if k = key then (k, v) :: rest else (k, w) :: setAssoc rest key v

/-- Model of a parsed YAML/JSON document value.  Floats are omitted (no claim
touches them); mapping keys are strings, the only key shape the claims use. -/
inductive Yaml where
  | null
  | bool (b : Bool)
  | int (n : Int)
  | str (s : String)
  | seq (items : List Yaml)
  | map (entries : List (String × Yaml))

/-- Hashable scalar values: the values Python accepts as dict keys among our
Yaml constructors.  Lists and dicts are unhashable and raise TypeError. -/
inductive Scalar where
  | null
  | bool (b : Bool)
  | int (n : Int)
  | str (s : String)
deriving DecidableEq

/-- Conversion of a Yaml value to a dict key; none for the unhashable
list/dict cases. -/
def toScalar : Yaml → Option Scalar
  | .null => some .null
  | .bool b => some (.bool b)
  | .int n => some (.int n)
  | .str s => some (.str s)
  | .seq _ => none
  | .map _ => none

/-- Python type name of a modelled value, used in diagnostic messages. -/
def pyTypeName : Yaml → String
  | .null => "NoneType"
  | .bool _ => "bool"
  | .int _ => "int"
  | .str _ => "str"
  | .seq _ => "list"
  | .map _ => "dict"

/-- Boolean test for a Yaml value being a given string; models the Python
comparison elem == s for a string literal s. -/
def yamlIsStr (y : Yaml) (s : String) : Bool :=
  match y with
  | .str t => t = s
  | _ => false

/-- List-prefix test on character lists. -/
def listPrefix : List Char → List Char → Bool
  | [], _ => true
  | _ :: _, [] => false
  | a :: s, b :: t => a = b && listPrefix s t

/-- List-infix test on character lists. -/
def listInfix (sub : List Char) : List Char → Bool
  | [] => listPrefix sub []
  | c :: t => listPrefix sub (c :: t) || listInfix sub t

/-- Substring test: models the Python expression needle in hay on two
strings. -/
def strContains (needle hay : String) : Bool :=
  listInfix needle.data hay.data

/-- Wraps a string in straight single quotes, the way the Python f-strings
and repr calls in both scripts surround names and values. -/
def pyQuote (s : String) : String :=
  (Char.ofNat 39).toString ++ s ++ (Char.ofNat 39).toString

/-- Model of the Python membership test k in y for a string literal k:
key membership for a dict, element equality for a list, substring test for a
string, and a TypeError for the non-iterable scalars. -/
def pyContainsStr : Yaml → String → Except String Bool
  | .map entries, k => .ok (hasKey entries k)
  | .seq items, k => .ok (items.any (yamlIsStr · k))
  | .str s, k => .ok (strContains k s)
  | y, _ => .error ("argument of type " ++ pyQuote (pyTypeName y) ++ " is not iterable")

/-- Model of the Python subscript y[k] for a string literal k: dict lookup
(KeyError if absent), TypeError on every other shape. -/
def pyGetItemStr : Yaml → String → Except String Yaml
  | .map entries, k =>
    match alookup entries k with
    | some v => .ok v
    | none => .error ("KeyError: " ++ pyQuote k)
  | .seq _, _ => .error "list indices must be integers or slices, not str"
  | .str _, _ => .error "string indices must be integers"
  | y, _ => .error (pyTypeName y ++ " object is not subscriptable")

/-- Model of Python iteration over a value: a list yields its elements, a
dict its keys, a string its characters; other shapes raise TypeError. -/
def pyIter : Yaml → Except String (List Yaml)
  | .seq items => .ok items
  | .map entries => .ok (entries.map (fun e => Yaml.str e.1))
  | .str s => .ok (s.data.map (fun c => Yaml.str c.toString))
  | y => .error (pyTypeName y ++ " object is not iterable")

/-- Model of the Python dict assignment d[k] = v where k is an arbitrary
value: unhashable keys (lists, dicts) raise TypeError, all other keys
insert-or-overwrite preserving position. -/
def pyDictSetItem (d : List (Scalar × Yaml)) (k v : Yaml) :
    Except String (List (Scalar × Yaml)) :=
  match toScalar k with
  | some key => .ok (setAssoc d key v)
  | none => .error ("unhashable type: " ++ pyQuote (pyTypeName k))

/-- One iteration of the record loop of extract_properties_from_yaml
(src/extract_api_properties.py lines 33-35): if the record has a name key
and a value key, store properties[record[name]] = record[value]; otherwise
leave the properties unchanged.  The two membership tests short-circuit
exactly as the Python conjunction does. -/
def extractRecord (props : List (Scalar × Yaml)) (item : Yaml) :
    Except String (List (Scalar × Yaml)) :=
  match pyContainsStr item "name" with
  | .error e => .error e
  | .ok false => .ok props
  | .ok true =>
    match pyContainsStr item "value" with
    | .error e => .error e
    | .ok false => .ok props
    | .ok true =>
      match pyGetItemStr item "name" with
      | .error e => .error e
      | .ok n =>
        match pyGetItemStr item "value" with
        | .error e => .error e
        | .ok v => pyDictSetItem props n v

/-- Record loop of extract_properties_from_yaml: fold the records through
extractRecord, propagating the first raised exception. -/
def extractLoop : List Yaml → List (Scalar × Yaml) →
    Except String (List (Scalar × Yaml))
  | [], props => .ok props
  | item :: rest, props =>
    match extractRecord props item with
    | .error e => .error e
    | .ok props2 => extractLoop rest props2

/-- Body of extract_properties_from_yaml after the YAML parse
(src/extract_api_properties.py lines 29-37): if data contains the key
data and data[data] contains additionalProperties, fold the records
through extractLoop; otherwise return the empty property dict.  Any
exception escapes as Except.error (caught by the catch-all handler). -/
def extractProps (data : Yaml) : Except String (List (Scalar × Yaml)) :=
  match pyContainsStr data "data" with
  | .error e => .error e
  | .ok false => .ok []
  | .ok true =>
    match pyGetItemStr data "data" with
    | .error e => .error e
    | .ok d =>
      match pyContainsStr d "additionalProperties" with
      | .error e => .error e
      | .ok false => .ok []
      | .ok true =>
        match pyGetItemStr d "additionalProperties" with
        | .error e => .error e
        | .ok ap =>
          match pyIter ap with
          | .error e => .error e
          | .ok items => extractLoop items []

/-- Outcome of opening and parsing an input file, abstracting the file
system: the file is missing, its content fails to parse (with the parser
diagnostic), or it parses to a value. -/
inductive ReadResult (α : Type) where
  | notFound
  | parseError (e : String)
  | parsed (v : α)

/-- Output stream of a diagnostic message. -/
inductive OutStream where
  | stdout
  | stderr
deriving DecidableEq

/-- Process-terminating failure: exit code, stream that received the
diagnostic, and the diagnostic text. -/
structure Fatal where
  code : Nat
  stream : OutStream
  message : String

/-- Model of extract_properties_from_yaml
(src/extract_api_properties.py lines 15-47) including its except clauses:
FileNotFoundError and yaml.YAMLError print to stderr and exit 1, and the
catch-all except Exception prints the exception text to stderr and exits 1. -/
def extract_properties_from_yaml (path : String) (r : ReadResult Yaml) :
    Except Fatal (List (Scalar × Yaml)) :=
  match r with
  | .notFound => .error ⟨1, .stderr, "Error: File not found: " ++ path⟩
  | .parseError e => .error ⟨1, .stderr, "Error parsing YAML file: " ++ e⟩
  | .parsed data =>
    match extractProps data with
    | .ok props => .ok props
    | .error e => .error ⟨1, .stderr, "Error: " ++ e⟩

/-- Observable outcome of a whole extractor run: exit code, plus the stream
and text of the diagnostic, when one was printed. -/
structure RunOutcome where
  exitCode : Nat
  diagStream : Option OutStream
  diagnostic : Option String
deriving DecidableEq

/-- Model of the extractor main (src/extract_api_properties.py lines
81-109) for a run without verbose mode or an output file: a fatal load error
exits with its code after printing to its stream; an empty property dict
prints a notice to stderr and exits 0; otherwise the run succeeds with exit
code 0 and the properties are rendered. -/
def extractorMain (path : String) (r : ReadResult Yaml) : RunOutcome :=
  match extract_properties_from_yaml path r with
  | .error f => ⟨f.code, some f.stream, some f.message⟩
  | .ok props =>
    if props.isEmpty then
      ⟨0, some .stderr, some "No properties found in additionalProperties section"⟩
    else ⟨0, none, none⟩

/-- Per-character model of Python str.upper, which applies the Unicode full
uppercase mapping and may expand one character into several.  The table is
exact on the ASCII range and on the special-cased characters the theorems
below evaluate it at: U+00DF LATIN SMALL LETTER SHARP S uppercases to the
two-character string SS, while U+1E9E LATIN CAPITAL LETTER SHARP S and
U+0130 LATIN CAPITAL LETTER I WITH DOT ABOVE are already uppercase and map
to themselves (covered by the identity branch).  Other non-ASCII characters
are left unchanged; the full Unicode table is not reproduced, and no
theorem below evaluates the mapping outside this table. -/
def pyUpperChar (c : Char) : List Char :=
  if c.toNat = 223 then ['S', 'S']
  else if 97 ≤ c.toNat ∧ c.toNat ≤ 122 then [Char.ofNat (c.toNat - 32)]
  else [c]

/-- Per-character model of Python str.lower (Unicode full lowercase
mapping), exact on the ASCII range and on the special-cased characters the
theorems below evaluate it at: U+1E9E LATIN CAPITAL LETTER SHARP S lowers
to U+00DF, U+0130 LATIN CAPITAL LETTER I WITH DOT ABOVE lowers to the
two-character sequence i followed by U+0307 COMBINING DOT ABOVE, and U+00DF
is already lowercase (identity branch).  Other non-ASCII characters are
left unchanged; no theorem below evaluates the mapping outside this
table. -/
def pyLowerChar (c : Char) : List Char :=
  if c.toNat = 7838 then [Char.ofNat 223]
  else if c.toNat = 304 then ['i', Char.ofNat 775]
  else if 65 ≤ c.toNat ∧ c.toNat ≤ 90 then [Char.ofNat (c.toNat + 32)]
  else [c]

/-- Model of Python str.upper: the per-character full uppercase mappings of
all characters, concatenated. -/
def pyUpper (s : String) : String :=
  String.mk (List.flatten (s.data.map pyUpperChar))

/-- Model of Python str.lower: the per-character full lowercase mappings of
all characters, concatenated. -/
def pyLower (s : String) : String :=
  String.mk (List.flatten (s.data.map pyLowerChar))

/-- Content of the env output format (src/extract_api_properties.py line
64): one UPPERCASED_NAME=value line per property, newline-joined, no
escaping.  Stated over string-valued property sets, the shape the spec data
model gives them. -/
def output_env (props : List (String × String)) : String :=
  String.intercalate "\n" (props.map (fun p => pyUpper p.1 ++ "=" ++ p.2))

/-- Content of the github output format (src/extract_api_properties.py line
69): one lowercased_name=value line per property. -/
def output_github (props : List (String × String)) : String :=
  String.intercalate "\n" (props.map (fun p => pyLower p.1 ++ "=" ++ p.2))

/-- Keys appearing in the env output, in line order. -/
def envOutputKeys (props : List (String × String)) : List String :=
  props.map (fun p => pyUpper p.1)

/-- Keys appearing in the github output, in line order. -/
def githubOutputKeys (props : List (String × String)) : List String :=
  props.map (fun p => pyLower p.1)

/-- Specification value: true when every key of the property set consists
of ASCII characters only. -/
def asciiKeys (props : List (String × String)) : Bool :=
  props.all (fun p => p.1.data.all (fun c => c.toNat ≤ 127))

/-- Opening curly brace character, written via its code point. -/
def lbrace : Char := Char.ofNat 123

/-- Closing curly brace character, written via its code point. -/
def rbrace : Char := Char.ofNat 125

/-- Lowercase hexadecimal digit character for a value below 16. -/
def hexDigitChar (n : Nat) : Char :=
  if n < 10 then Char.ofNat (48 + n) else Char.ofNat (87 + n)

/-- Four lowercase hexadecimal digits of a code point below 0x10000,
big-endian, as produced by the CPython \uXXXX escape formatting. -/
def hex4 (n : Nat) : List Char :=
  [hexDigitChar (n / 4096 % 16), hexDigitChar (n / 256 % 16),
   hexDigitChar (n / 16 % 16), hexDigitChar (n % 16)]

/-- Model of the CPython json escape of one character with the default
ensure_ascii=True: quote and backslash get a backslash escape, the five
control characters with short escapes use them, other printable ASCII is
literal, and everything else becomes \uXXXX (a surrogate pair above
0xFFFF). -/
def escChar (c : Char) : List Char :=
  if c = Char.ofNat 34 then [Char.ofNat 92, Char.ofNat 34]
  else if c = Char.ofNat 92 then [Char.ofNat 92, Char.ofNat 92]
  else if c.toNat = 8 then [Char.ofNat 92, 'b']
  else if c.toNat = 9 then [Char.ofNat 92, 't']
  else if c.toNat = 10 then [Char.ofNat 92, 'n']
  else if c.toNat = 12 then [Char.ofNat 92, 'f']
  else if c.toNat = 13 then [Char.ofNat 92, 'r']
  else if 32 ≤ c.toNat ∧ c.toNat ≤ 126 then [c]
  else if c.toNat < 65536 then Char.ofNat 92 :: 'u' :: hex4 c.toNat
  else
    Char.ofNat 92 :: 'u' :: hex4 (55296 + (c.toNat - 65536) / 1024) ++
      Char.ofNat 92 :: 'u' :: hex4 (56320 + (c.toNat - 65536) % 1024)

/-- JSON escape of a whole character list. -/
def escList : List Char → List Char
  | [] => []
  | c :: rest => escChar c ++ escList rest

/-- JSON string literal for a string: a double quote, the escaped content,
and a closing double quote, at the character level. -/
def jsonQuoteChars (cs : List Char) : List Char :=
  Char.ofNat 34 :: escList cs ++ [Char.ofNat 34]

/-- One rendered member of the dumped object: key, a colon and a space, and
the value (json.dumps key_separator is a colon followed by one space). -/
def renderEntry (p : String × String) : List Char :=
  jsonQuoteChars p.1.data ++ ':' :: ' ' :: jsonQuoteChars p.2.data

/-- Rendered member list with the separator json.dumps(indent=2) uses
between items: a comma, a newline, and the two-space indent. -/
def renderMembers : List (String × String) → List Char
  | [] => []
  | [p] => renderEntry p
  | p :: q :: rest => renderEntry p ++ ',' :: '\n' :: ' ' :: ' ' :: renderMembers (q :: rest)

/-- Model of json.dumps(properties, indent=2)
(src/extract_api_properties.py line 62): the empty dict prints as a bare
brace pair; a non-empty dict opens with a brace and newline, indents every
member by two spaces, and closes with a newline and brace. -/
def json_dumps_props (props : List (String × String)) : String :=
  match props with
  | [] => String.mk [lbrace, rbrace]
  | _ => String.mk (lbrace :: '\n' :: ' ' :: ' ' ::
      (renderMembers props ++ '\n' :: [rbrace]))

/-- Numeric value of one hexadecimal digit character, upper or lower case,
as accepted by the JSON \uXXXX escape. -/
def hexVal (c : Char) : Option Nat :=
  if 48 ≤ c.toNat ∧ c.toNat ≤ 57 then some (c.toNat - 48)
  else if 97 ≤ c.toNat ∧ c.toNat ≤ 102 then some (c.toNat - 87)
  else if 65 ≤ c.toNat ∧ c.toNat ≤ 70 then some (c.toNat - 55)
  else none

/-- Combined value of four hexadecimal digit characters, big-endian. -/
def hex4Val (a b c d : Char) : Option Nat :=
  match hexVal a, hexVal b, hexVal c, hexVal d with
  | some x, some y, some z, some w => some (((x * 16 + y) * 16 + z) * 16 + w)
  | _, _, _, _ => none

/-- Single-character JSON escapes and their values. -/
def unescapeChar (c : Char) : Option Char :=
  if c = Char.ofNat 34 then some (Char.ofNat 34)
  else if c = Char.ofNat 92 then some (Char.ofNat 92)
  else if c = '/' then some '/'
  else if c = 'b' then some (Char.ofNat 8)
  else if c = 'f' then some (Char.ofNat 12)
  else if c = 'n' then some (Char.ofNat 10)
  else if c = 'r' then some (Char.ofNat 13)
  else if c = 't' then some (Char.ofNat 9)
  else none

/-- Decoder for the body of a JSON string literal, up to and including the
closing quote: handles the single-character escapes, \uXXXX escapes, and
surrogate pairs for code points above 0xFFFF; unescaped control characters
and lone surrogates are rejected.  Returns the decoded characters and the
remaining input. -/
def parseHex4 : List Char → Option (Nat × List Char)
  | a :: b :: c :: d :: rest =>
    match hex4Val a b c d with
    | none => none
    | some n => some (n, rest)
  | _ => none

/-- Decoder for the payload of a \u escape, positioned on its four hex
digits: a high surrogate must be followed by a second \u escape holding a
low surrogate, and the pair combines to the astral code point; a lone
surrogate is rejected; any other value is the code point itself. -/
def parseUEscape (l : List Char) : Option (Char × List Char) :=
  match parseHex4 l with
  | none => none
  | some (n, rest) =>
    if 55296 ≤ n ∧ n ≤ 56319 then
      match rest with
      | b1 :: b2 :: rest2 =>
        if b1 = Char.ofNat 92 ∧ b2 = 'u' then
          match parseHex4 rest2 with
          | none => none
          | some (m, rest3) =>
            if 56320 ≤ m ∧ m ≤ 57343 then
              some (Char.ofNat (65536 + (n - 55296) * 1024 + (m - 56320)), rest3)
            else none
        else none
      | _ => none
    else if 56320 ≤ n ∧ n ≤ 57343 then none
    else some (Char.ofNat n, rest)

/-- Decoder for the part of an escape sequence after the backslash. -/
def parseEsc (e : Char) (rest : List Char) : Option (Char × List Char) :=
  if e = 'u' then parseUEscape rest
  else
    match unescapeChar e with
    | none => none
    | some c2 => some (c2, rest)

/-- Fuel-driven body of the string-literal decoder; the fuel only bounds
the recursion depth, and since every step consumes at least one input
character, handing it the input length plus one always suffices. -/
def parseJStringBodyF : Nat → List Char → Option (List Char × List Char)
  | 0, _ => none
  | fuel + 1, l =>
    match l with
    | [] => none
    | c :: rest =>
      if c = Char.ofNat 34 then some ([], rest)
      else if c = Char.ofNat 92 then
        match rest with
        | [] => none
        | e :: rest2 =>
          match parseEsc e rest2 with
          | none => none
          | some (c2, rest3) =>
            match parseJStringBodyF fuel rest3 with
            | none => none
            | some (cs, r) => some (c2 :: cs, r)
      else if c.toNat < 32 then none
      else
        match parseJStringBodyF fuel rest with
        | none => none
        | some (cs, r) => some (c :: cs, r)

/-- Decoder for a whole JSON string literal including its opening quote. -/
def parseJString (l : List Char) : Option (String × List Char) :=
  match l with
  | c :: rest =>
    if c = Char.ofNat 34 then
      match parseJStringBodyF (rest.length + 1) rest with
      | none => none
      | some (cs, r) => some (String.mk cs, r)
    else none
  | [] => none

/-- Skips JSON whitespace: space, tab, newline, carriage return. -/
def skipWs : List Char → List Char
  | [] => []
  | c :: rest =>
    if c = ' ' ∨ c = '\t' ∨ c = '\n' ∨ c = Char.ofNat 13 then skipWs rest
    else c :: rest

/-- Decoder for a single member of a JSON object: a string key, optional
whitespace, a colon, optional whitespace, and a string value. -/
def parseMember (l : List Char) : Option ((String × String) × List Char) :=
  match parseJString l with
  | none => none
  | some (k, r1) =>
    match skipWs r1 with
    | [] => none
    | c :: r3 =>
      if c = ':' then
        match parseJString (skipWs r3) with
        | none => none
        | some (v, r4) => some ((k, v), r4)
      else none

/-- Fuel-driven decoder for the member list of a JSON object, starting just
after the opening brace and any whitespace, consuming the closing brace.
The fuel only bounds the number of members; the top-level entry point hands
it the input length, which always suffices. -/
def parseMembersF : Nat → List Char → Option (List (String × String) × List Char)
  | 0, _ => none
  | fuel + 1, l =>
    match parseMember l with
    | none => none
    | some (kv, r4) =>
      match skipWs r4 with
      | [] => none
      | c2 :: r5 =>
        if c2 = ',' then
          match parseMembersF fuel (skipWs r5) with
          | none => none
          | some (ms, rest) => some (kv :: ms, rest)
        else if c2 = rbrace then some ([kv], r5)
        else none

/-- Decoder of a JSON object of string members, modelling json.loads
applied to the extractor's json output: it demands a single object covering
the whole input and builds the resulting dict with insert-or-overwrite
semantics, duplicate keys collapsing to the last value as dict creation
does. -/
def json_loads_obj (s : String) : Option (List (String × String)) :=
  match skipWs s.data with
  | [] => none
  | c :: r =>
    if c = lbrace then
      match skipWs r with
      | [] => none
      | c2 :: r2 =>
        if c2 = rbrace then
          if (skipWs r2).isEmpty then some [] else none
        else
          match parseMembersF (r.length + 1) (c2 :: r2) with
          | none => none
          | some (ms, rest) =>
            if (skipWs rest).isEmpty then
              some (ms.foldl (fun d p => setAssoc d p.1 p.2) [])
            else none
    else none

/-- Validation rule for one property, per the rule-document schema: a
required flag and a list of accepted string values.  The Python code reads
both fields with dict.get, so an absent field equals its default here:
required defaults to False and valid_values to the empty list
(src/validate_properties.py lines 57 and 79). -/
structure VRule where
  required : Bool := false
  valid_values : List String := []
deriving DecidableEq

/-- Python repr of a list of strings, as interpolated by the f-strings of
the validator: bracketed, comma-and-space separated, each element in single
quotes (elements themselves are assumed quote-free, as property values in
this system are). -/
def pyReprStrList (l : List String) : String :=
  "[" ++ String.intercalate ", " (l.map (fun s => pyQuote s)) ++ "]"

/-- Diagnostic for a property with no entry in the rule mapping
(src/validate_properties.py line 53). -/
def notDefinedMsg (name : String) : String :=
  "Property " ++ pyQuote name ++ " is not defined in validation rules"

/-- Diagnostic for a property whose value fails the membership check
(src/validate_properties.py line 62). -/
def invalidValueMsg (name value : String) (vals : List String) : String :=
  "Property " ++ pyQuote name ++ " has invalid value " ++ pyQuote value ++
    ". Valid values are: " ++ pyReprStrList vals

/-- Result of validating one property: the valid flag and, when invalid,
the error message (the Python dict carries an error key only in that
case). -/
structure ValidationResult where
  valid : Bool
  error : Option String
deriving DecidableEq

/-- Model of PropertyValidator.validate_property (src/validate_properties.py
lines 48-65): a name with no rule entry is invalid with the not-defined
message; otherwise the value must be a member of the rule's valid_values
list, an empty list rejecting every value. -/
def validate_property (rules : List (String × VRule)) (name value : String) :
    ValidationResult :=
  match alookup rules name with
  | none => ⟨false, some (notDefinedMsg name)⟩
  | some rule =>
    if value ∈ rule.valid_values then ⟨true, none⟩
    else ⟨false, some (invalidValueMsg name value rule.valid_values)⟩

/-- Accumulated results of validate_all_properties, mirroring the Python
results dict (src/validate_properties.py lines 69-75). -/
structure VResults where
  overall_valid : Bool
  property_results : List (String × ValidationResult)
  missing_required : List String
  errors : List String
  unknown_properties : List String
deriving DecidableEq

/-- Initial results value (src/validate_properties.py lines 69-75). -/
def initResults : VResults :=
  ⟨true, [], [], [], []⟩

/-- First pass of validate_all_properties (src/validate_properties.py lines
78-81): every rule whose required flag is true and whose name is absent
from the loaded properties is appended to missing_required, and the overall
verdict is set invalid. -/
def requiredPass (props : List (String × String)) :
    List (String × VRule) → VResults → VResults
  | [], acc => acc
  | (name, rule) :: rest, acc =>
    if rule.required && !hasKey props name then
      requiredPass props rest
        { acc with
          missing_required := acc.missing_required ++ [name]
          overall_valid := false }
    else requiredPass props rest acc

/-- Second pass of validate_all_properties (src/validate_properties.py lines
84-94): a property with no rule entry is appended to unknown_properties and
its value check is skipped; otherwise validate_property runs, its result is
recorded under the property name, and an invalid result flips the overall
verdict and appends the error message. -/
def propsPass (rules : List (String × VRule)) :
    List (String × String) → VResults → VResults
  | [], acc => acc
  | (name, value) :: rest, acc =>
    if !hasKey rules name then
      propsPass rules rest
        { acc with unknown_properties := acc.unknown_properties ++ [name] }
    else
      let vr := validate_property rules name value
      let acc2 := { acc with property_results := acc.property_results ++ [(name, vr)] }
      if !vr.valid then
        propsPass rules rest
          { acc2 with
            overall_valid := false
            errors := acc2.errors ++ [vr.error.getD ""] }
      else propsPass rules rest acc2

/-- Model of PropertyValidator.validate_all_properties
(src/validate_properties.py lines 67-96): the required-property scan
followed by the per-property validation scan. -/
def validate_all_properties (rules : List (String × VRule))
    (props : List (String × String)) : VResults :=
  propsPass rules props (requiredPass props rules initResults)

/-- Exit code chosen by the validator main after a successful load
(src/validate_properties.py lines 170-172): 0 when the overall verdict is
valid, 1 otherwise. -/
def validatorExitCode (rules : List (String × VRule))
    (props : List (String × String)) : Nat :=
  if (validate_all_properties rules props).overall_valid then 0 else 1

/-- Model of the constructor line self.validation_rules =
self.config.get(validation_rules, {}) (src/validate_properties.py line 18):
a parsed configuration mapping without the validation_rules key yields the
empty rule mapping. -/
def rulesFromConfig (config : List (String × List (String × VRule)))
    : List (String × VRule) :=
  (alookup config "validation_rules").getD []

/-- Model of PropertyValidator._load_config (src/validate_properties.py
lines 20-30): a missing file or a YAML parse error prints a ::error::
annotation with a plain print call — hence to standard output — and exits
1. -/
def load_config (path : String)
    (r : ReadResult (List (String × List (String × VRule)))) :
    Except Fatal (List (String × List (String × VRule))) :=
  match r with
  | .notFound =>
    .error ⟨1, .stdout, "::error::Configuration file " ++ pyQuote path ++ " not found"⟩
  | .parseError e =>
    .error ⟨1, .stdout, "::error::Invalid YAML in configuration file: " ++ e⟩
  | .parsed config => .ok config

/-- Shape of a parsed JSON properties file: a mapping of string properties,
or any other JSON value. -/
inductive JsonTop where
  | obj (props : List (String × String))
  | other

/-- Model of PropertyValidator.load_properties_from_json
(src/validate_properties.py lines 32-46): a missing file or a JSON decode
error prints a ::error:: annotation with a plain print call — to standard
output — and exits 1; a parsed value that is a mapping is the property set;
any other parsed shape silently yields the empty property set. -/
def load_properties_from_json (path : String) (r : ReadResult JsonTop) :
    Except Fatal (List (String × String)) :=
  match r with
  | .notFound =>
    .error ⟨1, .stdout, "::error::Properties file " ++ pyQuote path ++ " not found"⟩
  | .parseError e =>
    .error ⟨1, .stdout, "::error::Invalid JSON in properties file: " ++ e⟩
  | .parsed (.obj props) => .ok props
  | .parsed .other => .ok []

/-- Name extracted from a record by the loop of extractProps, for records
that pass its guards: the value under the name key of a mapping record,
converted to a dict key. -/
def recName (item : Yaml) : Option Scalar :=
  match item with
  | .map entries => (alookup entries "name").bind toScalar
  | _ => none

/-- Value extracted from a record by the loop of extractProps. -/
def recValue (item : Yaml) : Option Yaml :=
  match item with
  | .map entries => alookup entries "value"
  | _ => none

/-- A well-formed record: a mapping with a name key holding a hashable
scalar and a value key. -/
def goodRec (item : Yaml) : Bool :=
  (recName item).isSome && (recValue item).isSome

/-- Value assigned to a record name by the last record carrying that name,
in sequence order; none when no record carries it. -/
def lastVal (items : List Yaml) (n : Scalar) : Option Yaml :=
  match items with
  | [] => none
  | item :: rest =>
    match lastVal rest n with
    | some v => some v
    | none => if recName item = some n then recValue item else none

/-- Canonical well-formed source document holding the given record list at
the nested additionalProperties location. -/
def mkDoc (items : List Yaml) : Yaml :=
  .map [("data", .map [("additionalProperties", .seq items)])]

/-- Dictionary update performed by one good record in the extraction loop
(defaults are never reached on records satisfying goodRec). -/
def extractStep (d : List (Scalar × Yaml)) (item : Yaml) : List (Scalar × Yaml) :=
  setAssoc d ((recName item).getD .null) ((recValue item).getD .null)

/-- Names of the records of an additionalProperties list, in order. -/
def recNames (items : List Yaml) : List Scalar :=
  items.map (fun item => (recName item).getD .null)

/-- Specification value: true when no rule with a true required flag names
a property absent from the loaded property set. -/
def reqOk (props : List (String × String)) (rules : List (String × VRule)) : Bool :=
  rules.all (fun p => !(p.2.required && !hasKey props p.1))

/-- Specification value: the names the required-property scan appends to
missing_required, in rule order. -/
def missingReq (props : List (String × String)) (rules : List (String × VRule)) :
    List String :=
  (rules.filter (fun p => p.2.required && !hasKey props p.1)).map Prod.fst

/-- Specification value: true when every loaded property that has a rule
entry passes its value check. -/
def propsOk (rules : List (String × VRule)) (props : List (String × String)) : Bool :=
  props.all (fun q => !hasKey rules q.1 || (validate_property rules q.1 q.2).valid)

/-- Specification value: the per-property results recorded by the
validation scan, one entry per rule-known loaded property, in load order. -/
def knownResults (rules : List (String × VRule)) (props : List (String × String)) :
    List (String × ValidationResult) :=
  (props.filter (fun q => hasKey rules q.1)).map
    (fun q => (q.1, validate_property rules q.1 q.2))

/-- Specification value: the error messages accumulated by the validation
scan, one per failed value check, in load order. -/
def propErrors (rules : List (String × VRule)) (props : List (String × String)) :
    List String :=
  (props.filter (fun q => hasKey rules q.1 && !(validate_property rules q.1 q.2).valid)).map
    (fun q => (validate_property rules q.1 q.2).error.getD "")

/-- Specification value: the names the validation scan appends to
unknown_properties, one per loaded property without a rule entry, in load
order. -/
def unknownProps (rules : List (String × VRule)) (props : List (String × String)) :
    List String :=
  (props.filter (fun q => !hasKey rules q.1)).map Prod.fst

/-! Helper lemmas about association lists. -/

theorem list_all_congr {α : Type} {l : List α} {f g : α → Bool}
    (h : ∀ a ∈ l, f a = g a) : l.all f = l.all g := by
  induction l with
  | nil => rfl
  | cons a rest ih =>
    rw [List.all_cons, List.all_cons, h a (List.mem_cons_self a rest),
      ih (fun b hb => h b (List.mem_cons_of_mem a hb))]

theorem alookup_isSome_iff_mem {α β : Type} [DecidableEq α]
    (l : List (α × β)) (k : α) :
    (alookup l k).isSome = true ↔ k ∈ l.map Prod.fst := by
  induction l with
  | nil => simp [alookup]
  | cons p rest ih =>
    obtain ⟨a, b⟩ := p
    by_cases h : a = k
    · subst h
      simp [alookup]
    · simp only [alookup, List.map_cons, List.mem_cons]
      rw [if_neg h, ih]
      constructor
      · exact Or.inr
      · rintro (he | hm)
        · exact absurd he.symm h
        · exact hm

theorem hasKey_iff_mem {α β : Type} [DecidableEq α] (l : List (α × β)) (k : α) :
    hasKey l k = true ↔ k ∈ l.map Prod.fst := by
  unfold hasKey
  exact alookup_isSome_iff_mem l k

theorem hasKey_of_mem {α β : Type} [DecidableEq α] {l : List (α × β)}
    {p : α × β} (h : p ∈ l) : hasKey l p.1 = true := by
  rw [hasKey_iff_mem]
  exact List.mem_map_of_mem Prod.fst h

theorem hasKey_filter_keyPred {α β : Type} [DecidableEq α]
    (l : List (α × β)) (f : α → Bool) (k : α) (hf : f k = true) :
    hasKey (l.filter (fun q => f q.1)) k = hasKey l k := by
  induction l with
  | nil => rfl
  | cons p rest ih =>
    obtain ⟨a, b⟩ := p
    by_cases hk : a = k
    · subst hk
      simp [List.filter_cons, hf, hasKey, alookup]
    · by_cases hfa : f a <;> simp [List.filter_cons, hfa, hasKey, alookup, hk] <;>
        simpa [hasKey] using ih

/-! Characterization of the validator's two scan passes. -/

theorem requiredPass_eq (props : List (String × String))
    (rules : List (String × VRule)) (acc : VResults) :
    requiredPass props rules acc =
      ⟨acc.overall_valid && reqOk props rules,
       acc.property_results,
       acc.missing_required ++ missingReq props rules,
       acc.errors,
       acc.unknown_properties⟩ := by
  induction rules generalizing acc with
  | nil => simp [requiredPass, reqOk, missingReq]
  | cons p rest ih =>
    obtain ⟨name, rule⟩ := p
    unfold requiredPass
    by_cases h : (rule.required && !hasKey props name) = true
    · rw [if_pos h, ih]
      have h1 : rule.required = true := by
        revert h
        cases rule.required <;> simp
      have h2 : hasKey props name = false := by
        revert h
        cases rule.required <;> cases hasKey props name <;> simp
      have e1 : reqOk props ((name, rule) :: rest) = false := by
        simp [reqOk, List.all_cons, h1, h2]
      have e2 : missingReq props ((name, rule) :: rest) =
          name :: missingReq props rest := by
        simp [missingReq, List.filter_cons, h1, h2]
      rw [e1, e2, Bool.and_false]
      congr 1
      simp
    · rw [if_neg h, ih]
      simp [reqOk, missingReq, List.filter_cons, eq_false_of_ne_true h]
      have hpos : (!rule.required || hasKey props name) = true := by
        revert h
        cases rule.required <;> cases hasKey props name <;> simp
      rw [hpos, Bool.true_and]

theorem propsPass_eq (rules : List (String × VRule))
    (props : List (String × String)) (acc : VResults) :
    propsPass rules props acc =
      ⟨acc.overall_valid && propsOk rules props,
       acc.property_results ++ knownResults rules props,
       acc.missing_required,
       acc.errors ++ propErrors rules props,
       acc.unknown_properties ++ unknownProps rules props⟩ := by
  induction props generalizing acc with
  | nil => simp [propsPass, propsOk, knownResults, propErrors, unknownProps]
  | cons q rest ih =>
    obtain ⟨name, value⟩ := q
    by_cases hk : hasKey rules name
    · by_cases hv : (validate_property rules name value).valid
      · simp [propsPass, hk, hv, ih, propsOk, knownResults, propErrors, unknownProps,
          List.filter_cons, List.all_cons]
      · simp [propsPass, hk, hv, ih, propsOk, knownResults, propErrors, unknownProps,
          List.filter_cons, List.all_cons]
    · simp [propsPass, hk, ih, propsOk, knownResults, propErrors, unknownProps,
        List.filter_cons, List.all_cons]

theorem validate_all_eq (rules : List (String × VRule))
    (props : List (String × String)) :
    validate_all_properties rules props =
      ⟨reqOk props rules && propsOk rules props,
       knownResults rules props,
       missingReq props rules,
       propErrors rules props,
       unknownProps rules props⟩ := by
  unfold validate_all_properties
  rw [requiredPass_eq, propsPass_eq]
  simp [initResults]

theorem reqOk_elem_iff (props : List (String × String)) (p : String × VRule) :
    (!(p.2.required && !hasKey props p.1)) = true ↔
      (p.2.required = true → hasKey props p.1 = true) := by
  cases h1 : p.2.required <;> cases h2 : hasKey props p.1 <;> simp [h1, h2]

theorem propsOk_elem_iff (rules : List (String × VRule)) (q : String × String) :
    (!hasKey rules q.1 || (validate_property rules q.1 q.2).valid) = true ↔
      ∀ rule, alookup rules q.1 = some rule → q.2 ∈ rule.valid_values := by
  unfold validate_property
  cases h : alookup rules q.1 with
  | none => simp [hasKey, h]
  | some rule =>
    by_cases hm : q.2 ∈ rule.valid_values <;> simp [hasKey, h, hm]

/-- C1: for every rule mapping and every loaded property set, the overall
verdict is valid if and only if no rule with required=true names a property
absent from the property set and every present property with a rule entry
passes its value-membership check; and the process exit status is 0 exactly
when the verdict is valid, 1 otherwise. -/
theorem C1_verdict_iff_and_exit (rules : List (String × VRule))
    (props : List (String × String)) :
    ((validate_all_properties rules props).overall_valid = true ↔
      ((∀ p ∈ rules, p.2.required = true → hasKey props p.1 = true) ∧
       (∀ q ∈ props, ∀ rule, alookup rules q.1 = some rule →
          q.2 ∈ rule.valid_values))) ∧
    (validatorExitCode rules props = 0 ↔
      (validate_all_properties rules props).overall_valid = true) ∧
    (validatorExitCode rules props = 1 ↔
      ¬ (validate_all_properties rules props).overall_valid = true) := by
  refine ⟨?_, ?_, ?_⟩
  · rw [validate_all_eq]
    show (reqOk props rules && propsOk rules props) = true ↔ _
    rw [Bool.and_eq_true]
    unfold reqOk propsOk
    rw [List.all_eq_true, List.all_eq_true]
    constructor
    · rintro ⟨h1, h2⟩
      exact ⟨fun p hp => (reqOk_elem_iff props p).mp (h1 p hp),
             fun q hq => (propsOk_elem_iff rules q).mp (h2 q hq)⟩
    · rintro ⟨h1, h2⟩
      exact ⟨fun p hp => (reqOk_elem_iff props p).mpr (h1 p hp),
             fun q hq => (propsOk_elem_iff rules q).mpr (h2 q hq)⟩
  · unfold validatorExitCode
    cases h : (validate_all_properties rules props).overall_valid <;> simp [h]
  · unfold validatorExitCode
    cases h : (validate_all_properties rules props).overall_valid <;> simp [h]

/-- Witness for C1 at the concrete scenario of the spec: one required rule
for env with accepted values dev and prod, and the single property
env=prod. -/
theorem C1_witness :
    ((validate_all_properties [("env", ⟨true, ["dev", "prod"]⟩)]
        [("env", "prod")]).overall_valid = true ↔
      ((∀ p ∈ [("env", (⟨true, ["dev", "prod"]⟩ : VRule))],
          p.2.required = true → hasKey [("env", "prod")] p.1 = true) ∧
       (∀ q ∈ [("env", "prod")], ∀ rule,
          alookup [("env", (⟨true, ["dev", "prod"]⟩ : VRule))] q.1 = some rule →
          q.2 ∈ rule.valid_values))) ∧
    (validatorExitCode [("env", ⟨true, ["dev", "prod"]⟩)] [("env", "prod")] = 0 ↔
      (validate_all_properties [("env", ⟨true, ["dev", "prod"]⟩)]
        [("env", "prod")]).overall_valid = true) ∧
    (validatorExitCode [("env", ⟨true, ["dev", "prod"]⟩)] [("env", "prod")] = 1 ↔
      ¬ (validate_all_properties [("env", ⟨true, ["dev", "prod"]⟩)]
        [("env", "prod")]).overall_valid = true) :=
  C1_verdict_iff_and_exit [("env", ⟨true, ["dev", "prod"]⟩)] [("env", "prod")]

/-- C2: a rule entry whose valid_values list is empty (which is also what an
absent valid_values field loads as) rejects every supplied value, recording
a validation failure whose message names the property, its actual value,
and the accepted-value list. -/
theorem C2_empty_valid_values (rules : List (String × VRule))
    (name : String) (rule : VRule)
    (hr : alookup rules name = some rule) (hv : rule.valid_values = []) :
    ∀ value : String,
      validate_property rules name value =
        ⟨false, some (invalidValueMsg name value [])⟩ := by
  intro value
  unfold validate_property
  rw [hr]
  simp [hv]

/-- Witness for C2: the rule mapping declaring env with an empty accepted
list rejects the value dev. -/
theorem C2_witness :
    alookup [("env", (⟨true, []⟩ : VRule))] "env" = some ⟨true, []⟩ ∧
    validate_property [("env", ⟨true, []⟩)] "env" "dev" =
      ⟨false, some (invalidValueMsg "env" "dev" [])⟩ :=
  ⟨rfl, C2_empty_valid_values [("env", ⟨true, []⟩)] "env" ⟨true, []⟩ rfl rfl "dev"⟩

theorem propsOk_filter_known (rules : List (String × VRule))
    (props : List (String × String)) :
    propsOk rules (props.filter (fun q => hasKey rules q.1)) = propsOk rules props := by
  unfold propsOk
  induction props with
  | nil => rfl
  | cons q rest ih =>
    by_cases hk : hasKey rules q.1 <;>
      simp [List.filter_cons, hk, List.all_cons, ih]

theorem reqOk_filter_known (rules : List (String × VRule))
    (props : List (String × String)) :
    reqOk (props.filter (fun q => hasKey rules q.1)) rules = reqOk props rules := by
  unfold reqOk
  apply list_all_congr
  intro p hp
  rw [hasKey_filter_keyPred props (fun k => hasKey rules k) p.1 (hasKey_of_mem hp)]

/-- C6: a property present in the loaded property set but absent from the
rule mapping lands in the unknown-properties list, gets no per-property
result (its value check is skipped), and its presence alone never makes the
overall verdict invalid: dropping every rule-unknown property leaves the
verdict unchanged. -/
theorem C6_unknown_properties (rules : List (String × VRule))
    (props : List (String × String)) (name value : String)
    (hmem : (name, value) ∈ props) (hunk : hasKey rules name = false) :
    name ∈ (validate_all_properties rules props).unknown_properties ∧
    (∀ r, (name, r) ∉ (validate_all_properties rules props).property_results) ∧
    (validate_all_properties rules props).overall_valid =
      (validate_all_properties rules
        (props.filter (fun q => hasKey rules q.1))).overall_valid := by
  rw [validate_all_eq, validate_all_eq]
  refine ⟨?_, ?_, ?_⟩
  · show name ∈ unknownProps rules props
    unfold unknownProps
    refine List.mem_map.mpr ⟨(name, value), ?_, rfl⟩
    rw [List.mem_filter]
    exact ⟨hmem, by simp [hunk]⟩
  · intro r hr
    unfold knownResults at hr
    obtain ⟨q, hq, hqe⟩ := List.mem_map.mp hr
    rw [List.mem_filter] at hq
    have : q.1 = name := congrArg Prod.fst hqe
    rw [this] at hq
    rw [hunk] at hq
    exact absurd hq.2 (by simp)
  · show (reqOk props rules && propsOk rules props) = _
    rw [propsOk_filter_known, reqOk_filter_known]

/-- Witness for C6 at the spec scenario: property extra=x is unknown under
the env rule mapping and does not flip the verdict. -/
theorem C6_witness :
    ("extra", "x") ∈ [("env", "prod"), ("extra", "x")] ∧
    hasKey [("env", (⟨true, ["dev", "prod"]⟩ : VRule))] "extra" = false ∧
    ("extra" ∈ (validate_all_properties [("env", ⟨true, ["dev", "prod"]⟩)]
        [("env", "prod"), ("extra", "x")]).unknown_properties ∧
     (∀ r, ("extra", r) ∉ (validate_all_properties [("env", ⟨true, ["dev", "prod"]⟩)]
        [("env", "prod"), ("extra", "x")]).property_results) ∧
     (validate_all_properties [("env", ⟨true, ["dev", "prod"]⟩)]
        [("env", "prod"), ("extra", "x")]).overall_valid =
       (validate_all_properties [("env", ⟨true, ["dev", "prod"]⟩)]
         ([("env", "prod"), ("extra", "x")].filter
           (fun q => hasKey [("env", (⟨true, ["dev", "prod"]⟩ : VRule))] q.1))).overall_valid) :=
  ⟨by simp, rfl,
   C6_unknown_properties [("env", ⟨true, ["dev", "prod"]⟩)]
     [("env", "prod"), ("extra", "x")] "extra" "x" (by simp) rfl⟩

/-- C9: a parsed rule document that is a mapping without the top-level
validation_rules key loads as the empty rule mapping; the validator then
reports no missing-required names, reports every loaded property as
unknown, reaches a valid overall verdict, and exits 0. -/
theorem C9_missing_rules_key (config : List (String × List (String × VRule)))
    (props : List (String × String))
    (h : alookup config "validation_rules" = none) :
    rulesFromConfig config = [] ∧
    (validate_all_properties (rulesFromConfig config) props).missing_required = [] ∧
    (validate_all_properties (rulesFromConfig config) props).unknown_properties =
      props.map Prod.fst ∧
    (validate_all_properties (rulesFromConfig config) props).overall_valid = true ∧
    validatorExitCode (rulesFromConfig config) props = 0 := by
  have hrules : rulesFromConfig config = [] := by
    unfold rulesFromConfig
    rw [h]
    rfl
  rw [hrules]
  refine ⟨rfl, ?_, ?_, ?_, ?_⟩
  · rw [validate_all_eq]
    rfl
  · rw [validate_all_eq]
    show unknownProps [] props = props.map Prod.fst
    unfold unknownProps
    have : props.filter (fun q => !hasKey ([] : List (String × VRule)) q.1) = props := by
      apply List.filter_eq_self.mpr
      intro q _
      rfl
    rw [this]
  · rw [validate_all_eq]
    show (reqOk props [] && propsOk [] props) = true
    rw [Bool.and_eq_true]
    constructor
    · rfl
    · unfold propsOk
      apply List.all_eq_true.mpr
      intro q _
      rfl
  · unfold validatorExitCode
    rw [validate_all_eq]
    show (if (reqOk props [] && propsOk [] props : Bool) = true then 0 else 1) = 0
    have hok : (reqOk props [] && propsOk [] props) = true := by
      rw [Bool.and_eq_true]
      exact ⟨rfl, List.all_eq_true.mpr (fun q _ => rfl)⟩
    rw [hok]
    rfl

/-- Witness for C9: a configuration carrying only an unrelated key, with
one loaded property. -/
theorem C9_witness :
    alookup [("other_key", ([] : List (String × VRule)))] "validation_rules" = none ∧
    (rulesFromConfig [("other_key", [])] = [] ∧
     (validate_all_properties (rulesFromConfig [("other_key", [])])
        [("env", "dev")]).missing_required = [] ∧
     (validate_all_properties (rulesFromConfig [("other_key", [])])
        [("env", "dev")]).unknown_properties = [("env", "dev")].map Prod.fst ∧
     (validate_all_properties (rulesFromConfig [("other_key", [])])
        [("env", "dev")]).overall_valid = true ∧
     validatorExitCode (rulesFromConfig [("other_key", [])]) [("env", "dev")] = 0) :=
  ⟨rfl, C9_missing_rules_key [("other_key", [])] [("env", "dev")] rfl⟩

/-! Helper lemmas about the extractor. -/

theorem extractProps_doc (dm im : List (String × Yaml)) (items : List Yaml)
    (h1 : alookup dm "data" = some (.map im))
    (h2 : alookup im "additionalProperties" = some (.seq items)) :
    extractProps (.map dm) = extractLoop items [] := by
  unfold extractProps
  have hk1 : hasKey dm "data" = true := by
    unfold hasKey
    rw [h1]
    rfl
  have hk2 : hasKey im "additionalProperties" = true := by
    unfold hasKey
    rw [h2]
    rfl
  simp [pyContainsStr, hk1, hk2, pyGetItemStr, h1, h2, pyIter]

theorem extractProps_mkDoc (items : List Yaml) :
    extractProps (mkDoc items) = extractLoop items [] :=
  extractProps_doc _ _ items rfl rfl

theorem extractLoop_append (xs ys : List Yaml) (props : List (Scalar × Yaml)) :
    extractLoop (xs ++ ys) props =
      match extractLoop xs props with
      | .error e => .error e
      | .ok p => extractLoop ys p := by
  induction xs generalizing props with
  | nil => rfl
  | cons item rest ih =>
    show extractLoop (item :: (rest ++ ys)) props = _
    simp only [extractLoop]
    cases extractRecord props item with
    | error e => rfl
    | ok p2 => exact ih p2

theorem extractRecord_skip (bm : List (String × Yaml))
    (props : List (Scalar × Yaml))
    (hb : hasKey bm "name" = false ∨ hasKey bm "value" = false) :
    extractRecord props (Yaml.map bm) = .ok props := by
  unfold extractRecord
  cases hn : hasKey bm "name" with
  | false => simp [pyContainsStr, hn]
  | true =>
    rcases hb with hb | hb
    · rw [hn] at hb
      exact absurd hb (by simp)
    · simp [pyContainsStr, hn, hb]

theorem extractLoop_skip (bm : List (String × Yaml)) (post : List Yaml)
    (props : List (Scalar × Yaml))
    (hb : hasKey bm "name" = false ∨ hasKey bm "value" = false) :
    extractLoop (Yaml.map bm :: post) props = extractLoop post props := by
  simp only [extractLoop, extractRecord_skip bm props hb]

theorem goodRec_shape (item : Yaml) (h : goodRec item = true) :
    ∃ entries ny n v, item = Yaml.map entries ∧
      alookup entries "name" = some ny ∧ toScalar ny = some n ∧
      alookup entries "value" = some v ∧
      recName item = some n ∧ recValue item = some v := by
  cases item with
  | map entries =>
    have hrn : recName (Yaml.map entries) = (alookup entries "name").bind toScalar := rfl
    have hrv : recValue (Yaml.map entries) = alookup entries "value" := rfl
    unfold goodRec at h
    rw [Bool.and_eq_true] at h
    obtain ⟨hn, hv⟩ := h
    rw [hrn, Option.isSome_iff_exists] at hn
    rw [hrv, Option.isSome_iff_exists] at hv
    obtain ⟨n, hn⟩ := hn
    obtain ⟨v, hv⟩ := hv
    rw [Option.bind_eq_some] at hn
    obtain ⟨ny, hny, hns⟩ := hn
    exact ⟨entries, ny, n, v, rfl, hny, hns, hv,
      by rw [hrn, hny]; exact hns, by rw [hrv]; exact hv⟩
  | null => simp [goodRec, recName] at h
  | bool b => simp [goodRec, recName] at h
  | int n => simp [goodRec, recName] at h
  | str s => simp [goodRec, recName] at h
  | seq l => simp [goodRec, recName] at h

theorem extractLoop_good (items : List Yaml) :
    ∀ props : List (Scalar × Yaml), (∀ item ∈ items, goodRec item = true) →
      extractLoop items props = .ok (items.foldl extractStep props) := by
  induction items with
  | nil => intro props _; rfl
  | cons item rest ih =>
    intro props h
    obtain ⟨entries, ny, n, v, hitem, hny, hns, hv, hrn, hrv⟩ :=
      goodRec_shape item (h item (List.mem_cons_self item rest))
    subst hitem
    have hkn : hasKey entries "name" = true := by
      unfold hasKey
      rw [hny]
      rfl
    have hkv : hasKey entries "value" = true := by
      unfold hasKey
      rw [hv]
      rfl
    have hrec : extractRecord props (Yaml.map entries) = .ok (setAssoc props n v) := by
      unfold extractRecord
      simp [pyContainsStr, hkn, hkv, pyGetItemStr, hny, hv, pyDictSetItem, hns]
    show extractLoop (Yaml.map entries :: rest) props = _
    simp only [extractLoop, hrec]
    rw [ih (setAssoc props n v) (fun i hi => h i (List.mem_cons_of_mem _ hi))]
    have hstep : extractStep props (Yaml.map entries) = setAssoc props n v := by
      unfold extractStep
      rw [hrn, hrv]
      rfl
    rw [List.foldl_cons, hstep]

theorem alookup_setAssoc {α β : Type} [DecidableEq α]
    (d : List (α × β)) (k : α) (v : β) (k' : α) :
    alookup (setAssoc d k v) k' = if k' = k then some v else alookup d k' := by
  induction d with
  | nil =>
    by_cases h : k = k'
    · subst h
      simp [setAssoc, alookup]
    · have hs : ¬ k' = k := fun hh => h hh.symm
      simp [setAssoc, alookup, h, hs]
  | cons p rest ih =>
    obtain ⟨a, b⟩ := p
    by_cases hak : a = k
    · subst hak
      by_cases hk' : a = k'
      · subst hk'
        simp [setAssoc, alookup]
      · have hs : ¬ k' = a := fun hh => hk' hh.symm
        simp [setAssoc, alookup, hk', hs]
    · by_cases hk' : a = k'
      · subst hk'
        simp [setAssoc, alookup, hak]
      · simp [setAssoc, alookup, hak, hk', ih]

theorem mem_keys_setAssoc {α β : Type} [DecidableEq α]
    (d : List (α × β)) (k : α) (v : β) (a : α) :
    a ∈ (setAssoc d k v).map Prod.fst ↔ a ∈ d.map Prod.fst ∨ a = k := by
  induction d with
  | nil => simp [setAssoc]
  | cons p rest ih =>
    obtain ⟨x, y⟩ := p
    by_cases hx : x = k
    · subst hx
      simp [setAssoc]
      tauto
    · simp [setAssoc, hx, ih]
      tauto

theorem nodup_keys_setAssoc {α β : Type} [DecidableEq α]
    (d : List (α × β)) (k : α) (v : β)
    (h : (d.map Prod.fst).Nodup) : ((setAssoc d k v).map Prod.fst).Nodup := by
  induction d with
  | nil => simp [setAssoc]
  | cons p rest ih =>
    obtain ⟨x, y⟩ := p
    rw [List.map_cons, List.nodup_cons] at h
    by_cases hx : x = k
    · subst hx
      have hset : setAssoc ((x, y) :: rest) x v = (x, v) :: rest := by
        simp [setAssoc]
      rw [hset, List.map_cons, List.nodup_cons]
      exact h
    · have hset : setAssoc ((x, y) :: rest) k v = (x, y) :: setAssoc rest k v := by
        simp [setAssoc, hx]
      rw [hset, List.map_cons, List.nodup_cons]
      refine ⟨?_, ih h.2⟩
      rw [mem_keys_setAssoc]
      rintro (hm | hm)
      · exact h.1 hm
      · exact hx hm

theorem nodup_keys_foldl (items : List Yaml) :
    ∀ props : List (Scalar × Yaml), ((props.map Prod.fst).Nodup) →
      (((items.foldl extractStep props).map Prod.fst).Nodup) := by
  induction items with
  | nil => exact fun props h => h
  | cons item rest ih =>
    intro props h
    rw [List.foldl_cons]
    exact ih _ (nodup_keys_setAssoc props _ _ h)

theorem mem_keys_foldl (items : List Yaml) :
    ∀ (props : List (Scalar × Yaml)) (a : Scalar),
      (a ∈ (items.foldl extractStep props).map Prod.fst ↔
        a ∈ props.map Prod.fst ∨ a ∈ recNames items) := by
  induction items with
  | nil => simp [recNames]
  | cons item rest ih =>
    intro props a
    rw [List.foldl_cons, ih (extractStep props item) a]
    unfold extractStep
    rw [mem_keys_setAssoc]
    have hrn : recNames (item :: rest) =
        (recName item).getD .null :: recNames rest := rfl
    rw [hrn, List.mem_cons]
    tauto

theorem length_foldl_extractStep (items : List Yaml) :
    ((items.foldl extractStep []).length) = (recNames items).dedup.length := by
  classical
  have hnd : (((items.foldl extractStep []).map Prod.fst).Nodup) :=
    nodup_keys_foldl items [] (by simp)
  have hmem : ∀ a, a ∈ (items.foldl extractStep []).map Prod.fst ↔
      a ∈ recNames items := by
    intro a
    rw [mem_keys_foldl items [] a]
    simp
  have hfin : ((items.foldl extractStep []).map Prod.fst).toFinset =
      (recNames items).toFinset := by
    apply Finset.ext
    intro a
    rw [List.mem_toFinset, List.mem_toFinset]
    exact hmem a
  have h1 : ((items.foldl extractStep []).map Prod.fst).length =
      ((items.foldl extractStep []).map Prod.fst).toFinset.card := by
    rw [List.card_toFinset, hnd.dedup]
  have h2 : (items.foldl extractStep []).length =
      ((items.foldl extractStep []).map Prod.fst).length := by
    rw [List.length_map]
  rw [h2, h1, hfin, List.card_toFinset]

theorem alookup_foldl_lastVal (items : List Yaml)
    (h : ∀ item ∈ items, goodRec item = true) :
    ∀ (props : List (Scalar × Yaml)) (n : Scalar),
      alookup (items.foldl extractStep props) n =
        match lastVal items n with
        | some v => some v
        | none => alookup props n := by
  induction items with
  | nil => intro props n; rfl
  | cons item rest ih =>
    intro props n
    obtain ⟨entries, ny, nm, v, hitem, hny, hns, hv, hrn, hrv⟩ :=
      goodRec_shape item (h item (List.mem_cons_self item rest))
    rw [List.foldl_cons]
    rw [ih (fun i hi => h i (List.mem_cons_of_mem _ hi))]
    have hcons : lastVal (item :: rest) n =
        match lastVal rest n with
        | some w => some w
        | none => if recName item = some n then recValue item else none := rfl
    rw [hcons]
    cases hlast : lastVal rest n with
    | some w => rfl
    | none =>
      have hstep : extractStep props item = setAssoc props nm v := by
        unfold extractStep
        rw [hrn, hrv]
        rfl
      rw [hstep, alookup_setAssoc, hrn, hrv]
      by_cases hn : n = nm
      · subst hn
        simp
      · have hne : ¬ (some nm = some n) := fun hc => hn (Option.some.inj hc).symm
        rw [if_neg hn, if_neg hne]

/-- C4, amended: for every well-formed source document whose nested
additionalProperties location holds a list of records that each carry a
name key (with a hashable scalar name) and a value key, extraction
succeeds, the resulting property set has one entry per distinct record
name (not per record: duplicate names collapse), and each name maps to the
value of the last record carrying it in sequence order. -/
theorem C4_extraction_size_and_last_wins (dm im : List (String × Yaml))
    (items : List Yaml)
    (h1 : alookup dm "data" = some (.map im))
    (h2 : alookup im "additionalProperties" = some (.seq items))
    (hg : ∀ item ∈ items, goodRec item = true) :
    ∃ props, extractProps (.map dm) = .ok props ∧
      props.length = (recNames items).dedup.length ∧
      ∀ n : Scalar, alookup props n = lastVal items n := by
  refine ⟨items.foldl extractStep [], ?_, ?_, ?_⟩
  · rw [extractProps_doc dm im items h1 h2]
    exact extractLoop_good items [] hg
  · exact length_foldl_extractStep items
  · intro n
    rw [alookup_foldl_lastVal items hg [] n]
    cases lastVal items n <;> rfl

/-- Witness for C4 at a concrete document: two records with distinct names
env and team give a two-entry property set with the recorded values. -/
theorem C4_witness :
    alookup [("data", Yaml.map [("additionalProperties", Yaml.seq
        [Yaml.map [("name", Yaml.str "env"), ("value", Yaml.str "dev")],
         Yaml.map [("name", Yaml.str "team"), ("value", Yaml.str "x")]])])]
      "data" = some (Yaml.map [("additionalProperties", Yaml.seq
        [Yaml.map [("name", Yaml.str "env"), ("value", Yaml.str "dev")],
         Yaml.map [("name", Yaml.str "team"), ("value", Yaml.str "x")]])]) ∧
    (∃ props, extractProps (Yaml.map [("data", Yaml.map [("additionalProperties", Yaml.seq
        [Yaml.map [("name", Yaml.str "env"), ("value", Yaml.str "dev")],
         Yaml.map [("name", Yaml.str "team"), ("value", Yaml.str "x")]])])]) = .ok props ∧
      props.length = (recNames
        [Yaml.map [("name", Yaml.str "env"), ("value", Yaml.str "dev")],
         Yaml.map [("name", Yaml.str "team"), ("value", Yaml.str "x")]]).dedup.length ∧
      ∀ n : Scalar, alookup props n = lastVal
        [Yaml.map [("name", Yaml.str "env"), ("value", Yaml.str "dev")],
         Yaml.map [("name", Yaml.str "team"), ("value", Yaml.str "x")]] n) :=
  ⟨rfl, C4_extraction_size_and_last_wins _ _ _ rfl rfl (by
    intro item hi
    simp only [List.mem_cons, List.not_mem_nil, or_false] at hi
    rcases hi with rfl | rfl <;> rfl)⟩

/-- Counterexample to C4 as stated: a document whose additionalProperties
list holds two valid records sharing the name a yields a property set of
size one, not two. -/
theorem C4_counterexample :
    extractProps (mkDoc [Yaml.map [("name", Yaml.str "a"), ("value", Yaml.str "1")],
                         Yaml.map [("name", Yaml.str "a"), ("value", Yaml.str "2")]]) =
      .ok [(Scalar.str "a", Yaml.str "2")] ∧
    [Yaml.map [("name", Yaml.str "a"), ("value", Yaml.str "1")],
     Yaml.map [("name", Yaml.str "a"), ("value", Yaml.str "2")]].length = 2 ∧
    [(Scalar.str "a", Yaml.str "2")].length ≠ 2 :=
  ⟨rfl, rfl, by decide⟩

/-- C5, amended: a mapping record at the nested additionalProperties
location that lacks the name key or the value key is skipped without
error, contributing nothing to the extraction; a document whose top-level
mapping lacks the data key, or whose data entry is a mapping lacking the
additionalProperties key, yields an empty property set; but when the data
entry is the non-iterable null scalar, the membership test raises instead
of yielding an empty property set, and the run fails. -/
theorem C5_tolerance (pre post : List Yaml) (bm : List (String × Yaml))
    (hb : hasKey bm "name" = false ∨ hasKey bm "value" = false) :
    (extractProps (mkDoc (pre ++ Yaml.map bm :: post)) =
      extractProps (mkDoc (pre ++ post))) ∧
    (∀ dm : List (String × Yaml), hasKey dm "data" = false →
      extractProps (.map dm) = .ok []) ∧
    (∀ dm im : List (String × Yaml), alookup dm "data" = some (.map im) →
      hasKey im "additionalProperties" = false →
      extractProps (.map dm) = .ok []) ∧
    (∀ dm : List (String × Yaml), alookup dm "data" = some .null →
      extractProps (.map dm) =
        .error ("argument of type " ++ pyQuote "NoneType" ++ " is not iterable")) := by
  refine ⟨?_, ?_, ?_, ?_⟩
  · rw [extractProps_mkDoc, extractProps_mkDoc, extractLoop_append, extractLoop_append]
    cases hpre : extractLoop pre [] with
    | error e => rfl
    | ok p => exact extractLoop_skip bm post p hb
  · intro dm h
    unfold extractProps
    simp [pyContainsStr, h]
  · intro dm im h1 h2
    have hk1 : hasKey dm "data" = true := by
      unfold hasKey
      rw [h1]
      rfl
    unfold extractProps
    simp [pyContainsStr, hk1, pyGetItemStr, h1, h2]
  · intro dm h1
    have hk1 : hasKey dm "data" = true := by
      unfold hasKey
      rw [h1]
      rfl
    unfold extractProps
    simp [pyContainsStr, hk1, pyGetItemStr, h1, pyTypeName]

/-- Witness for C5: a record lacking the value key between two good records
contributes nothing, and documents without the nested location extract to
the empty property set. -/
theorem C5_witness :
    (hasKey [("name", Yaml.str "ghost")] "value" = false) ∧
    (extractProps (mkDoc ([Yaml.map [("name", Yaml.str "env"), ("value", Yaml.str "dev")]] ++
        Yaml.map [("name", Yaml.str "ghost")] ::
        [Yaml.map [("name", Yaml.str "team"), ("value", Yaml.str "x")]])) =
      extractProps (mkDoc ([Yaml.map [("name", Yaml.str "env"), ("value", Yaml.str "dev")]] ++
        [Yaml.map [("name", Yaml.str "team"), ("value", Yaml.str "x")]]))) ∧
    extractProps (.map [("other", Yaml.int 1)]) = .ok [] :=
  ⟨rfl,
   (C5_tolerance [Yaml.map [("name", Yaml.str "env"), ("value", Yaml.str "dev")]]
      [Yaml.map [("name", Yaml.str "team"), ("value", Yaml.str "x")]]
      [("name", Yaml.str "ghost")] (Or.inr rfl)).1,
   (C5_tolerance [] [] [("name", Yaml.str "ghost")] (Or.inr rfl)).2.1
     [("other", Yaml.int 1)] rfl⟩

/-- Counterexample to C5 as stated: the parseable document whose top-level
mapping binds data to the integer five has no additionalProperties
location, yet extraction raises a TypeError instead of yielding an empty
property set, and the extractor run exits 1. -/
theorem C5_counterexample :
    extractProps (Yaml.map [("data", Yaml.int 5)]) =
      .error ("argument of type " ++ pyQuote "int" ++ " is not iterable") ∧
    (extractorMain "api.yaml" (.parsed (Yaml.map [("data", Yaml.int 5)]))).exitCode = 1 :=
  ⟨rfl, rfl⟩

/-- C3, amended: every fatal load failure of category input-not-found or
malformed-structured-data or malformed-JSON terminates the run with a
non-zero exit status; the extractor writes its diagnostic to the error
stream, but the validator writes its ::error:: diagnostics with plain
print calls, hence to standard output, not the error stream. -/
theorem C3_fatal_failures :
    (∀ (path : String) (r : ReadResult Yaml) (f : Fatal),
       extract_properties_from_yaml path r = .error f →
         f.code ≠ 0 ∧ f.stream = .stderr) ∧
    (∀ (path : String) (r : ReadResult (List (String × List (String × VRule)))) (f : Fatal),
       load_config path r = .error f → f.code ≠ 0 ∧ f.stream = .stdout) ∧
    (∀ (path : String) (r : ReadResult JsonTop) (f : Fatal),
       load_properties_from_json path r = .error f →
         f.code ≠ 0 ∧ f.stream = .stdout) := by
  refine ⟨?_, ?_, ?_⟩
  · intro path r f h
    cases r with
    | notFound =>
      injection h with hf
      rw [← hf]
      exact ⟨Nat.one_ne_zero, rfl⟩
    | parseError e =>
      injection h with hf
      rw [← hf]
      exact ⟨Nat.one_ne_zero, rfl⟩
    | parsed data =>
      simp only [extract_properties_from_yaml] at h
      cases hx : extractProps data with
      | ok props =>
        rw [hx] at h
        cases h
      | error e =>
        rw [hx] at h
        injection h with hf
        rw [← hf]
        exact ⟨Nat.one_ne_zero, rfl⟩
  · intro path r f h
    cases r with
    | notFound =>
      injection h with hf
      rw [← hf]
      exact ⟨Nat.one_ne_zero, rfl⟩
    | parseError e =>
      injection h with hf
      rw [← hf]
      exact ⟨Nat.one_ne_zero, rfl⟩
    | parsed config => cases h
  · intro path r f h
    cases r with
    | notFound =>
      injection h with hf
      rw [← hf]
      exact ⟨Nat.one_ne_zero, rfl⟩
    | parseError e =>
      injection h with hf
      rw [← hf]
      exact ⟨Nat.one_ne_zero, rfl⟩
    | parsed top =>
      cases top with
      | obj props => cases h
      | other => cases h

/-- Witness for C3 at the extractor file-not-found failure. -/
theorem C3_witness :
    (Fatal.mk 1 .stderr ("Error: File not found: " ++ "api.yaml")).code ≠ 0 ∧
    (Fatal.mk 1 .stderr ("Error: File not found: " ++ "api.yaml")).stream = .stderr :=
  C3_fatal_failures.1 "api.yaml" .notFound
    ⟨1, .stderr, "Error: File not found: " ++ "api.yaml"⟩ rfl

/-- Counterexample to C3 as stated: the validator's configuration-file
not-found failure writes its diagnostic to standard output, not to the
error stream. -/
theorem C3_counterexample :
    load_config "property-validation-config.yaml" .notFound =
      .error ⟨1, .stdout, "::error::Configuration file " ++
        pyQuote "property-validation-config.yaml" ++ " not found"⟩ ∧
    OutStream.stdout ≠ OutStream.stderr :=
  ⟨rfl, by decide⟩

/-- C10, amended: an extractor input parsing to null (and likewise to a
boolean or a number) makes the membership test raise, the catch-all
handler print the TypeError text to the error stream, and the process exit
1; but an input parsing to a sequence or a string does not raise: the
membership test is element or substring membership, and when it finds no
match the extractor returns the empty property set, prints the no-properties
notice, and exits 0. -/
theorem C10_nonmapping_toplevel (path : String) (b : Bool) (n : Int) :
    extractorMain path (.parsed .null) =
      ⟨1, some .stderr,
        some ("Error: argument of type " ++ pyQuote "NoneType" ++ " is not iterable")⟩ ∧
    extractorMain path (.parsed (.bool b)) =
      ⟨1, some .stderr,
        some ("Error: argument of type " ++ pyQuote "bool" ++ " is not iterable")⟩ ∧
    extractorMain path (.parsed (.int n)) =
      ⟨1, some .stderr,
        some ("Error: argument of type " ++ pyQuote "int" ++ " is not iterable")⟩ ∧
    (∀ l : List Yaml, (l.any (yamlIsStr · "data")) = false →
      extractorMain path (.parsed (.seq l)) =
        ⟨0, some .stderr, some "No properties found in additionalProperties section"⟩) ∧
    (∀ s : String, strContains "data" s = false →
      extractorMain path (.parsed (.str s)) =
        ⟨0, some .stderr, some "No properties found in additionalProperties section"⟩) := by
  refine ⟨rfl, rfl, rfl, ?_, ?_⟩
  · intro l hl
    unfold extractorMain extract_properties_from_yaml extractProps
    simp [pyContainsStr, hl]
  · intro s hs
    unfold extractorMain extract_properties_from_yaml extractProps
    simp [pyContainsStr, hs]

/-- Witness for C10: the null input fails with exit 1 while the empty
sequence input exits 0 with the no-properties notice. -/
theorem C10_witness :
    extractorMain "api.yaml" (.parsed (.seq [])) =
      ⟨0, some .stderr, some "No properties found in additionalProperties section"⟩ ∧
    extractorMain "api.yaml" (.parsed .null) =
      ⟨1, some .stderr,
        some ("Error: argument of type " ++ pyQuote "NoneType" ++ " is not iterable")⟩ :=
  ⟨(C10_nonmapping_toplevel "api.yaml" true 5).2.2.2.1 [] rfl,
   (C10_nonmapping_toplevel "api.yaml" true 5).1⟩

/-- Counterexample to C10 as stated: the well-formed YAML input parsing to
the empty sequence is a non-mapping top-level value, yet the membership
test does not raise: the extractor returns an empty property set and the
process exits 0, not 1. -/
theorem C10_counterexample :
    extractProps (.seq []) = .ok [] ∧
    (extractorMain "api.yaml" (.parsed (.seq []))).exitCode = 0 ∧
    (extractorMain "api.yaml" (.parsed (.seq []))).exitCode ≠ 1 :=
  ⟨rfl, rfl, by decide⟩

/-! Helper lemmas about the ASCII case transforms. -/

theorem toNat_ofNat_valid (n : Nat) (h : Nat.isValidChar n) :
    (Char.ofNat n).toNat = n := by
  simp [Char.ofNat, h, Char.ofNatAux, Char.toNat, UInt32.toNat, BitVec.toNat_ofNatLt]

theorem toNat_ofNat_small (n : Nat) (h : n < 55296) : (Char.ofNat n).toNat = n :=
  toNat_ofNat_valid n (Or.inl h)

theorem pyUpperChar_lower (c : Char) (hl : 97 ≤ c.toNat ∧ c.toNat ≤ 122) :
    pyUpperChar c = [Char.ofNat (c.toNat - 32)] := by
  unfold pyUpperChar
  rw [if_neg (by omega), if_pos hl]

theorem pyUpperChar_plain (c : Char) (h : c.toNat ≤ 127)
    (hl : ¬ (97 ≤ c.toNat ∧ c.toNat ≤ 122)) : pyUpperChar c = [c] := by
  unfold pyUpperChar
  rw [if_neg (by omega), if_neg hl]

theorem pyLowerChar_upper (c : Char) (hu : 65 ≤ c.toNat ∧ c.toNat ≤ 90) :
    pyLowerChar c = [Char.ofNat (c.toNat + 32)] := by
  unfold pyLowerChar
  rw [if_neg (by omega), if_neg (by omega), if_pos hu]

theorem pyLowerChar_plain (c : Char) (h : c.toNat ≤ 127)
    (hu : ¬ (65 ≤ c.toNat ∧ c.toNat ≤ 90)) : pyLowerChar c = [c] := by
  unfold pyLowerChar
  rw [if_neg (by omega), if_neg (by omega), if_neg hu]

theorem upperChars_pyUpperChar (c : Char) (h : c.toNat ≤ 127) :
    List.flatten ((pyUpperChar c).map pyUpperChar) = pyUpperChar c := by
  by_cases hl : 97 ≤ c.toNat ∧ c.toNat ≤ 122
  · rw [pyUpperChar_lower c hl]
    have ht : (Char.ofNat (c.toNat - 32)).toNat = c.toNat - 32 :=
      toNat_ofNat_small _ (by omega)
    simp only [List.map_cons, List.map_nil, List.flatten]
    rw [pyUpperChar_plain _ (by omega) (by omega)]
    simp
  · rw [pyUpperChar_plain c h hl]
    simp only [List.map_cons, List.map_nil, List.flatten]
    rw [pyUpperChar_plain c h hl]
    simp

theorem upperChars_pyLowerChar (c : Char) (h : c.toNat ≤ 127) :
    List.flatten ((pyLowerChar c).map pyUpperChar) = pyUpperChar c := by
  by_cases hu : 65 ≤ c.toNat ∧ c.toNat ≤ 90
  · rw [pyLowerChar_upper c hu]
    have ht : (Char.ofNat (c.toNat + 32)).toNat = c.toNat + 32 :=
      toNat_ofNat_small _ (by omega)
    simp only [List.map_cons, List.map_nil, List.flatten]
    rw [pyUpperChar_lower _ (by omega), ht]
    have he : c.toNat + 32 - 32 = c.toNat := by omega
    rw [he, Char.ofNat_toNat, pyUpperChar_plain c h (by omega)]
    simp
  · rw [pyLowerChar_plain c h hu]
    simp only [List.map_cons, List.map_nil, List.flatten]
    simp

theorem upperJoin_upper (cs : List Char) (h : ∀ c ∈ cs, c.toNat ≤ 127) :
    List.flatten ((List.flatten (cs.map pyUpperChar)).map pyUpperChar) =
      List.flatten (cs.map pyUpperChar) := by
  induction cs with
  | nil => rfl
  | cons c rest ih =>
    simp only [List.map_cons, List.flatten_cons, List.map_append, List.flatten_append]
    rw [upperChars_pyUpperChar c (h c (List.mem_cons_self c rest)),
      ih (fun x hx => h x (List.mem_cons_of_mem c hx))]

theorem upperJoin_lower (cs : List Char) (h : ∀ c ∈ cs, c.toNat ≤ 127) :
    List.flatten ((List.flatten (cs.map pyLowerChar)).map pyUpperChar) =
      List.flatten (cs.map pyUpperChar) := by
  induction cs with
  | nil => rfl
  | cons c rest ih =>
    simp only [List.map_cons, List.flatten_cons, List.map_append, List.flatten_append]
    rw [upperChars_pyLowerChar c (h c (List.mem_cons_self c rest)),
      ih (fun x hx => h x (List.mem_cons_of_mem c hx))]

theorem pyUpper_cases_eq (k : String) (h : ∀ c ∈ k.data, c.toNat ≤ 127) :
    pyUpper (pyUpper k) = pyUpper (pyLower k) := by
  show String.mk (List.flatten ((List.flatten (k.data.map pyUpperChar)).map pyUpperChar)) =
    String.mk (List.flatten ((List.flatten (k.data.map pyLowerChar)).map pyUpperChar))
  rw [upperJoin_upper k.data h, upperJoin_lower k.data h]

theorem zip_keys_vals {α : Type} (f g : α → String) (l : List α) :
    List.zipWith (fun k v => k ++ "=" ++ v) (l.map f) (l.map g) =
      l.map (fun p => f p ++ "=" ++ g p) := by
  induction l with
  | nil => rfl
  | cons a rest ih => simp only [List.map_cons, List.zipWith_cons_cons, ih]

/-- C8, amended: for every property set whose keys are ASCII, the env
format prints uppercased keys and the github format prints lowercased keys
over the identical key list, and uppercasing every key appearing in the
env output gives exactly the same key list (hence the same multiset) as
uppercasing every key appearing in the github output; under Python's full
Unicode case mapping the equality fails for special-cased keys such as
U+1E9E, so the ASCII restriction is necessary.  The second and third parts
exhibit those key lists as the keys of the respective output lines. -/
theorem C8_env_github_case_transform (props : List (String × String))
    (h : asciiKeys props = true) :
    (envOutputKeys props).map pyUpper = (githubOutputKeys props).map pyUpper ∧
    output_env props = String.intercalate "\n"
      (List.zipWith (fun k v => k ++ "=" ++ v)
        (envOutputKeys props) (props.map Prod.snd)) ∧
    output_github props = String.intercalate "\n"
      (List.zipWith (fun k v => k ++ "=" ++ v)
        (githubOutputKeys props) (props.map Prod.snd)) := by
  refine ⟨?_, ?_, ?_⟩
  · unfold envOutputKeys githubOutputKeys
    rw [List.map_map, List.map_map]
    apply List.map_congr_left
    intro p hp
    show pyUpper (pyUpper p.1) = pyUpper (pyLower p.1)
    have hk := List.all_eq_true.mp h p hp
    apply pyUpper_cases_eq
    intro c hc
    exact of_decide_eq_true (List.all_eq_true.mp hk c hc)
  · unfold output_env envOutputKeys
    rw [zip_keys_vals]
  · unfold output_github githubOutputKeys
    rw [zip_keys_vals]

/-- Witness for C8 on a two-property set with mixed-case ASCII keys. -/
theorem C8_witness :
    asciiKeys [("Env", "dev"), ("teamName", "x")] = true ∧
    ((envOutputKeys [("Env", "dev"), ("teamName", "x")]).map pyUpper =
      (githubOutputKeys [("Env", "dev"), ("teamName", "x")]).map pyUpper ∧
     output_env [("Env", "dev"), ("teamName", "x")] = String.intercalate "\n"
      (List.zipWith (fun k v => k ++ "=" ++ v)
        (envOutputKeys [("Env", "dev"), ("teamName", "x")])
        ([("Env", "dev"), ("teamName", "x")].map Prod.snd)) ∧
     output_github [("Env", "dev"), ("teamName", "x")] = String.intercalate "\n"
      (List.zipWith (fun k v => k ++ "=" ++ v)
        (githubOutputKeys [("Env", "dev"), ("teamName", "x")])
        ([("Env", "dev"), ("teamName", "x")].map Prod.snd))) :=
  ⟨rfl, C8_env_github_case_transform [("Env", "dev"), ("teamName", "x")] rfl⟩

/-- Counterexample to C8 as stated: under Python's full Unicode case
mapping, the property set with the single key U+1E9E LATIN CAPITAL LETTER
SHARP S breaks the key-multiset equality: the env output key uppercases to
itself, while the github output key lowercases to U+00DF and then
uppercases to the two-character string SS. -/
theorem C8_counterexample :
    (envOutputKeys [("\u1E9E", "v")]).map pyUpper = ["\u1E9E"] ∧
    (githubOutputKeys [("\u1E9E", "v")]).map pyUpper = ["SS"] ∧
    (["\u1E9E"] : List String) ≠ (["SS"] : List String) :=
  ⟨rfl, rfl, by decide⟩

/-! Helper lemmas for the JSON round trip: hex digits, escapes, and the
string-literal decoder. -/

theorem hexVal_hexDigitChar (d : Nat) (h : d < 16) :
    hexVal (hexDigitChar d) = some d := by
  by_cases hd : d < 10
  · have hc : hexDigitChar d = Char.ofNat (48 + d) := by
      unfold hexDigitChar
      rw [if_pos hd]
    have ht : (Char.ofNat (48 + d)).toNat = 48 + d := toNat_ofNat_small _ (by omega)
    unfold hexVal
    rw [hc, ht, if_pos (by omega)]
    exact congrArg some (by omega)
  · have hc : hexDigitChar d = Char.ofNat (87 + d) := by
      unfold hexDigitChar
      rw [if_neg hd]
    have ht : (Char.ofNat (87 + d)).toNat = 87 + d := toNat_ofNat_small _ (by omega)
    unfold hexVal
    rw [hc, ht, if_neg (by omega), if_pos (by omega)]
    exact congrArg some (by omega)

theorem hex4Val_hex4 (n : Nat) (h : n < 65536) :
    hex4Val (hexDigitChar (n / 4096 % 16)) (hexDigitChar (n / 256 % 16))
      (hexDigitChar (n / 16 % 16)) (hexDigitChar (n % 16)) = some n := by
  unfold hex4Val
  rw [hexVal_hexDigitChar _ (Nat.mod_lt _ (by omega)),
      hexVal_hexDigitChar _ (Nat.mod_lt _ (by omega)),
      hexVal_hexDigitChar _ (Nat.mod_lt _ (by omega)),
      hexVal_hexDigitChar _ (Nat.mod_lt _ (by omega))]
  exact congrArg some (by omega)

theorem parseHex4_hex4 (n : Nat) (t : List Char) (h : n < 65536) :
    parseHex4 (hex4 n ++ t) = some (n, t) := by
  show (match hex4Val (hexDigitChar (n / 4096 % 16)) (hexDigitChar (n / 256 % 16))
      (hexDigitChar (n / 16 % 16)) (hexDigitChar (n % 16)) with
    | none => none
    | some m => some (m, t)) = some (n, t)
  rw [hex4Val_hex4 n h]

theorem parseUEscape_bmp (n : Nat) (t : List Char) (h : n < 65536)
    (h1 : ¬(55296 ≤ n ∧ n ≤ 56319)) (h2 : ¬(56320 ≤ n ∧ n ≤ 57343)) :
    parseUEscape (hex4 n ++ t) = some (Char.ofNat n, t) := by
  unfold parseUEscape
  rw [parseHex4_hex4 n t h]
  show (if 55296 ≤ n ∧ n ≤ 56319 then _ else _) = _
  rw [if_neg h1, if_neg h2]

theorem parseUEscape_astral (u : Nat) (t : List Char) (h : u < 1048576) :
    parseUEscape (hex4 (55296 + u / 1024) ++
      (Char.ofNat 92 :: 'u' :: (hex4 (56320 + u % 1024) ++ t))) =
      some (Char.ofNat (65536 + u), t) := by
  have hdiv : u / 1024 < 1024 := by omega
  have hmod : u % 1024 < 1024 := Nat.mod_lt u (by omega)
  have hhi : 55296 + u / 1024 < 65536 := by omega
  have hlo : 56320 + u % 1024 < 65536 := by omega
  unfold parseUEscape
  rw [parseHex4_hex4 _ _ hhi]
  show (if 55296 ≤ 55296 + u / 1024 ∧ 55296 + u / 1024 ≤ 56319 then _ else _) = _
  rw [if_pos (by omega)]
  show (if Char.ofNat 92 = Char.ofNat 92 ∧ ('u' : Char) = 'u' then
      match parseHex4 (hex4 (56320 + u % 1024) ++ t) with
      | none => none
      | some (m, rest3) =>
        if 56320 ≤ m ∧ m ≤ 57343 then
          some (Char.ofNat (65536 + (55296 + u / 1024 - 55296) * 1024 + (m - 56320)), rest3)
        else none
    else none) = _
  rw [if_pos ⟨rfl, rfl⟩, parseHex4_hex4 _ _ hlo]
  show (if 56320 ≤ 56320 + u % 1024 ∧ 56320 + u % 1024 ≤ 57343 then
      some (Char.ofNat (65536 + (55296 + u / 1024 - 55296) * 1024 +
        (56320 + u % 1024 - 56320)), t)
    else none) = _
  rw [if_pos (by omega)]
  have harith : 65536 + (55296 + u / 1024 - 55296) * 1024 + (56320 + u % 1024 - 56320) =
      65536 + u := by
    have hdm : 1024 * (u / 1024) + u % 1024 = u := Nat.div_add_mod u 1024
    omega
  rw [harith]

theorem parseBodyF_esc (e : Char) (c2 : Char) (rest2 rest3 : List Char) (fuel : Nat)
    (h : parseEsc e rest2 = some (c2, rest3)) :
    parseJStringBodyF (fuel + 1) (Char.ofNat 92 :: e :: rest2) =
      match parseJStringBodyF fuel rest3 with
      | none => none
      | some (cs, r) => some (c2 :: cs, r) := by
  show (match parseEsc e rest2 with
        | none => none
        | some (c2, rest3) =>
          match parseJStringBodyF fuel rest3 with
          | none => none
          | some (cs, r) => some (c2 :: cs, r)) = _
  rw [h]

theorem parseBodyF_lit (c : Char) (t : List Char) (fuel : Nat)
    (h34 : ¬ c = Char.ofNat 34) (h92 : ¬ c = Char.ofNat 92)
    (hc : ¬ c.toNat < 32) :
    parseJStringBodyF (fuel + 1) (c :: t) =
      match parseJStringBodyF fuel t with
      | none => none
      | some (cs, r) => some (c :: cs, r) := by
  show (if c = Char.ofNat 34 then some ([], t)
        else if c = Char.ofNat 92 then
          match t with
          | [] => none
          | e :: rest2 =>
            match parseEsc e rest2 with
            | none => none
            | some (c2, rest3) =>
              match parseJStringBodyF fuel rest3 with
              | none => none
              | some (cs, r) => some (c2 :: cs, r)
        else if c.toNat < 32 then none
        else
          match parseJStringBodyF fuel t with
          | none => none
          | some (cs, r) => some (c :: cs, r)) = _
  rw [if_neg h34, if_neg h92, if_neg hc]

theorem char_valid_nat (c : Char) :
    c.toNat < 55296 ∨ (57343 < c.toNat ∧ c.toNat < 1114112) := c.valid

theorem parseEsc_u (l : List Char) : parseEsc 'u' l = parseUEscape l := rfl

theorem parseEsc_bmp (c : Char) (t : List Char)
    (h9 : c.toNat < 65536)
    (hs1 : ¬(55296 ≤ c.toNat ∧ c.toNat ≤ 56319))
    (hs2 : ¬(56320 ≤ c.toNat ∧ c.toNat ≤ 57343)) :
    parseEsc 'u' (hex4 c.toNat ++ t) = some (c, t) := by
  rw [parseEsc_u, parseUEscape_bmp c.toNat t h9 hs1 hs2, Char.ofNat_toNat]

theorem parseEsc_astral (c : Char) (t : List Char)
    (h9 : ¬ c.toNat < 65536) :
    parseEsc 'u' (hex4 (55296 + (c.toNat - 65536) / 1024) ++
      (Char.ofNat 92 :: 'u' :: (hex4 (56320 + (c.toNat - 65536) % 1024) ++ t))) =
      some (c, t) := by
  have hval := char_valid_nat c
  have hu : c.toNat - 65536 < 1048576 := by omega
  rw [parseEsc_u, parseUEscape_astral (c.toNat - 65536) t hu]
  have he : 65536 + (c.toNat - 65536) = c.toNat := by omega
  rw [he, Char.ofNat_toNat]

theorem parseBodyF_escChar (c : Char) (t : List Char) (fuel : Nat) :
    parseJStringBodyF (fuel + 1) (escChar c ++ t) =
      match parseJStringBodyF fuel t with
      | none => none
      | some (cs, r) => some (c :: cs, r) := by
  by_cases h1 : c = Char.ofNat 34
  · subst h1
    exact parseBodyF_esc (Char.ofNat 34) (Char.ofNat 34) t t fuel rfl
  by_cases h2 : c = Char.ofNat 92
  · subst h2
    exact parseBodyF_esc (Char.ofNat 92) (Char.ofNat 92) t t fuel rfl
  by_cases h3 : c.toNat = 8
  · have hce : c = Char.ofNat 8 := by rw [← h3, Char.ofNat_toNat]
    have hesc : escChar c = [Char.ofNat 92, 'b'] := by
      unfold escChar
      rw [if_neg h1, if_neg h2, if_pos h3]
    rw [hesc, hce]
    exact parseBodyF_esc 'b' (Char.ofNat 8) t t fuel rfl
  by_cases h4 : c.toNat = 9
  · have hce : c = Char.ofNat 9 := by rw [← h4, Char.ofNat_toNat]
    have hesc : escChar c = [Char.ofNat 92, 't'] := by
      unfold escChar
      rw [if_neg h1, if_neg h2, if_neg h3, if_pos h4]
    rw [hesc, hce]
    exact parseBodyF_esc 't' (Char.ofNat 9) t t fuel rfl
  by_cases h5 : c.toNat = 10
  · have hce : c = Char.ofNat 10 := by rw [← h5, Char.ofNat_toNat]
    have hesc : escChar c = [Char.ofNat 92, 'n'] := by
      unfold escChar
      rw [if_neg h1, if_neg h2, if_neg h3, if_neg h4, if_pos h5]
    rw [hesc, hce]
    exact parseBodyF_esc 'n' (Char.ofNat 10) t t fuel rfl
  by_cases h6 : c.toNat = 12
  · have hce : c = Char.ofNat 12 := by rw [← h6, Char.ofNat_toNat]
    have hesc : escChar c = [Char.ofNat 92, 'f'] := by
      unfold escChar
      rw [if_neg h1, if_neg h2, if_neg h3, if_neg h4, if_neg h5, if_pos h6]
    rw [hesc, hce]
    exact parseBodyF_esc 'f' (Char.ofNat 12) t t fuel rfl
  by_cases h7 : c.toNat = 13
  · have hce : c = Char.ofNat 13 := by rw [← h7, Char.ofNat_toNat]
    have hesc : escChar c = [Char.ofNat 92, 'r'] := by
      unfold escChar
      rw [if_neg h1, if_neg h2, if_neg h3, if_neg h4, if_neg h5, if_neg h6, if_pos h7]
    rw [hesc, hce]
    exact parseBodyF_esc 'r' (Char.ofNat 13) t t fuel rfl
  by_cases h8 : 32 ≤ c.toNat ∧ c.toNat ≤ 126
  · have hesc : escChar c = [c] := by
      unfold escChar
      rw [if_neg h1, if_neg h2, if_neg h3, if_neg h4, if_neg h5, if_neg h6, if_neg h7,
        if_pos h8]
    rw [hesc]
    exact parseBodyF_lit c t fuel h1 h2 (by omega)
  by_cases h9 : c.toNat < 65536
  · have hesc : escChar c = Char.ofNat 92 :: 'u' :: hex4 c.toNat := by
      unfold escChar
      rw [if_neg h1, if_neg h2, if_neg h3, if_neg h4, if_neg h5, if_neg h6, if_neg h7,
        if_neg h8, if_pos h9]
    rw [hesc]
    have hval := char_valid_nat c
    simp only [List.cons_append]
    exact parseBodyF_esc 'u' c (hex4 c.toNat ++ t) t fuel
      (parseEsc_bmp c t h9 (by omega) (by omega))
  · have hesc : escChar c = Char.ofNat 92 :: 'u' :: hex4 (55296 + (c.toNat - 65536) / 1024) ++
        Char.ofNat 92 :: 'u' :: hex4 (56320 + (c.toNat - 65536) % 1024) := by
      unfold escChar
      rw [if_neg h1, if_neg h2, if_neg h3, if_neg h4, if_neg h5, if_neg h6, if_neg h7,
        if_neg h8, if_neg h9]
    rw [hesc]
    simp only [List.cons_append, List.append_assoc]
    exact parseBodyF_esc 'u' c _ t fuel (parseEsc_astral c t h9)

theorem parseBodyF_escList (cs : List Char) :
    ∀ (t : List Char) (fuel : Nat), cs.length < fuel →
      parseJStringBodyF fuel (escList cs ++ Char.ofNat 34 :: t) = some (cs, t) := by
  induction cs with
  | nil =>
    intro t fuel hf
    cases fuel with
    | zero => omega
    | succ f => rfl
  | cons c cs ih =>
    intro t fuel hf
    cases fuel with
    | zero => omega
    | succ f =>
      show parseJStringBodyF (f + 1)
        ((escChar c ++ escList cs) ++ Char.ofNat 34 :: t) = _
      rw [List.append_assoc, parseBodyF_escChar c _ f,
        ih t f (by simp only [List.length_cons] at hf; omega)]

theorem escChar_length_pos (c : Char) : 1 ≤ (escChar c).length := by
  unfold escChar
  split_ifs <;> simp [hex4]

theorem escList_length_ge (cs : List Char) : cs.length ≤ (escList cs).length := by
  induction cs with
  | nil => simp [escList]
  | cons c cs ih =>
    show _ ≤ (escChar c ++ escList cs).length
    rw [List.length_append]
    have h1 := escChar_length_pos c
    simp only [List.length_cons]
    omega

theorem parseJString_quote (s : String) (t : List Char) :
    parseJString (jsonQuoteChars s.data ++ t) = some (s, t) := by
  have harr : jsonQuoteChars s.data ++ t =
      Char.ofNat 34 :: (escList s.data ++ (Char.ofNat 34 :: t)) := by
    unfold jsonQuoteChars
    simp [List.cons_append, List.append_assoc]
  rw [harr]
  have hlen : s.data.length < (escList s.data ++ (Char.ofNat 34 :: t)).length + 1 := by
    have h1 := escList_length_ge s.data
    simp only [List.length_append, List.length_cons]
    omega
  show (match parseJStringBodyF ((escList s.data ++ (Char.ofNat 34 :: t)).length + 1)
      (escList s.data ++ (Char.ofNat 34 :: t)) with
    | none => none
    | some (cs, r) => some (String.mk cs, r)) = some (s, t)
  rw [parseBodyF_escList s.data t _ hlen]

theorem skipWs_colon (l : List Char) : skipWs (':' :: l) = ':' :: l := rfl

theorem skipWs_comma (l : List Char) : skipWs (',' :: l) = ',' :: l := rfl

theorem skipWs_space (l : List Char) : skipWs (' ' :: l) = skipWs l := rfl

theorem skipWs_nl (l : List Char) : skipWs ('\n' :: l) = skipWs l := rfl

theorem skipWs_rbrace (l : List Char) : skipWs (rbrace :: l) = rbrace :: l := rfl

theorem skipWs_lbrace (l : List Char) : skipWs (lbrace :: l) = lbrace :: l := rfl

theorem skipWs_nil : skipWs [] = [] := rfl

theorem skipWs_jsonQuote (cs X : List Char) :
    skipWs (jsonQuoteChars cs ++ X) = jsonQuoteChars cs ++ X := by
  unfold jsonQuoteChars
  rw [List.cons_append]
  rfl

theorem skipWs_renderEntry (q : String × String) (X : List Char) :
    skipWs (renderEntry q ++ X) = renderEntry q ++ X := by
  unfold renderEntry
  rw [List.append_assoc, skipWs_jsonQuote]

theorem skipWs_renderMembers_cons (q : String × String) (l : List (String × String))
    (X : List Char) :
    skipWs (renderMembers (q :: l) ++ X) = renderMembers (q :: l) ++ X := by
  cases l with
  | nil => exact skipWs_renderEntry q X
  | cons r rest =>
    show skipWs ((renderEntry q ++
      ',' :: '\n' :: ' ' :: ' ' :: renderMembers (r :: rest)) ++ X) = _
    rw [List.append_assoc, skipWs_renderEntry]
    have hr : renderMembers (q :: r :: rest) =
        renderEntry q ++ ',' :: '\n' :: ' ' :: ' ' :: renderMembers (r :: rest) := rfl
    rw [hr]
    simp [List.cons_append, List.append_assoc]

theorem parseMember_render (p : String × String) (X : List Char) :
    parseMember (renderEntry p ++ X) = some (p, X) := by
  have harg : renderEntry p ++ X =
      jsonQuoteChars p.1.data ++ (':' :: ' ' :: (jsonQuoteChars p.2.data ++ X)) := by
    unfold renderEntry
    simp [List.cons_append, List.append_assoc]
  unfold parseMember
  rw [harg, parseJString_quote p.1]
  show (match skipWs (':' :: ' ' :: (jsonQuoteChars p.2.data ++ X)) with
    | [] => none
    | c :: r3 =>
      if c = ':' then
        match parseJString (skipWs r3) with
        | none => none
        | some (v, r4) => some ((p.1, v), r4)
      else none) = some (p, X)
  rw [skipWs_colon]
  show (if (':' : Char) = ':' then
      match parseJString (skipWs (' ' :: (jsonQuoteChars p.2.data ++ X))) with
      | none => none
      | some (v, r4) => some ((p.1, v), r4)
    else none) = some (p, X)
  rw [if_pos rfl, skipWs_space, skipWs_jsonQuote, parseJString_quote p.2]

theorem parseMembersF_render (ps : List (String × String)) :
    ∀ (t : List Char) (fuel : Nat), ps ≠ [] → ps.length ≤ fuel →
      parseMembersF fuel (renderMembers ps ++ '\n' :: rbrace :: t) = some (ps, t) := by
  induction ps with
  | nil => intro t fuel h _; exact absurd rfl h
  | cons p rest ih =>
    intro t fuel _ hf
    cases fuel with
    | zero => simp at hf
    | succ f =>
      cases rest with
      | nil =>
        show parseMembersF (f + 1) (renderEntry p ++ '\n' :: rbrace :: t) = _
        simp only [parseMembersF]
        rw [parseMember_render p ('\n' :: rbrace :: t)]
        show (match skipWs ('\n' :: rbrace :: t) with
          | [] => none
          | c2 :: r5 =>
            if c2 = ',' then
              match parseMembersF f (skipWs r5) with
              | none => none
              | some (ms, rest) => some (p :: ms, rest)
            else if c2 = rbrace then some ([p], r5)
            else none) = some ([p], t)
        rw [skipWs_nl, skipWs_rbrace]
        show (if rbrace = ',' then
            match parseMembersF f (skipWs t) with
            | none => none
            | some (ms, rest) => some (p :: ms, rest)
          else if rbrace = rbrace then some ([p], t) else none) = some ([p], t)
        rw [if_neg (by decide), if_pos rfl]
      | cons q rest2 =>
        have harg : renderMembers (p :: q :: rest2) ++ '\n' :: rbrace :: t =
            renderEntry p ++ (',' :: '\n' :: ' ' :: ' ' ::
              (renderMembers (q :: rest2) ++ '\n' :: rbrace :: t)) := by
          show (renderEntry p ++ ',' :: '\n' :: ' ' :: ' ' :: renderMembers (q :: rest2)) ++ _ = _
          simp [List.append_assoc, List.cons_append]
        rw [harg]
        simp only [parseMembersF]
        rw [parseMember_render p _]
        show (match skipWs (',' :: '\n' :: ' ' :: ' ' ::
            (renderMembers (q :: rest2) ++ '\n' :: rbrace :: t)) with
          | [] => none
          | c2 :: r5 =>
            if c2 = ',' then
              match parseMembersF f (skipWs r5) with
              | none => none
              | some (ms, rest) => some (p :: ms, rest)
            else if c2 = rbrace then some ([p], r5)
            else none) = some (p :: q :: rest2, t)
        rw [skipWs_comma]
        show (if (',' : Char) = ',' then
            match parseMembersF f (skipWs ('\n' :: ' ' :: ' ' ::
              (renderMembers (q :: rest2) ++ '\n' :: rbrace :: t))) with
            | none => none
            | some (ms, rest) => some (p :: ms, rest)
          else if (',' : Char) = rbrace then
            some ([p], ('\n' :: ' ' :: ' ' ::
              (renderMembers (q :: rest2) ++ '\n' :: rbrace :: t)))
          else none) = some (p :: q :: rest2, t)
        rw [if_pos rfl, skipWs_nl, skipWs_space, skipWs_space, skipWs_renderMembers_cons]
        rw [ih t f (by simp) (by simp only [List.length_cons] at hf ⊢; omega)]

theorem jsonQuoteChars_length (cs : List Char) : 2 ≤ (jsonQuoteChars cs).length := by
  unfold jsonQuoteChars
  simp

theorem renderEntry_length (p : String × String) : 2 ≤ (renderEntry p).length := by
  unfold renderEntry
  have h := jsonQuoteChars_length p.1.data
  simp only [List.length_append, List.length_cons]
  omega

theorem renderMembers_length (ps : List (String × String)) :
    ps.length ≤ (renderMembers ps).length := by
  induction ps with
  | nil => simp [renderMembers]
  | cons p rest ih =>
    cases rest with
    | nil =>
      show 1 ≤ (renderEntry p).length
      have := renderEntry_length p
      omega
    | cons q rest2 =>
      show (p :: q :: rest2).length ≤
        (renderEntry p ++ ',' :: '\n' :: ' ' :: ' ' :: renderMembers (q :: rest2)).length
      have h1 := renderEntry_length p
      simp only [List.length_append, List.length_cons] at *
      omega

theorem setAssoc_append {α β : Type} [DecidableEq α] (d : List (α × β)) (k : α) (v : β)
    (h : k ∉ d.map Prod.fst) : setAssoc d k v = d ++ [(k, v)] := by
  induction d with
  | nil => rfl
  | cons p rest ih =>
    obtain ⟨a, b⟩ := p
    simp only [List.map_cons, List.mem_cons] at h
    push_neg at h
    have hak : ¬ a = k := fun hh => h.1 hh.symm
    show setAssoc ((a, b) :: rest) k v = _
    unfold setAssoc
    rw [if_neg hak, ih h.2]
    rfl

theorem foldl_setAssoc_append (ms : List (String × String)) :
    ∀ d : List (String × String), (((d ++ ms).map Prod.fst).Nodup) →
      ms.foldl (fun dd p => setAssoc dd p.1 p.2) d = d ++ ms := by
  induction ms with
  | nil => intro d _; simp
  | cons p rest ih =>
    intro d h
    rw [List.foldl_cons]
    have hk : p.1 ∉ d.map Prod.fst := by
      rw [List.map_append] at h
      have hd := List.nodup_append.mp h
      intro hmem
      exact hd.2.2 hmem (by simp)
    rw [setAssoc_append d p.1 p.2 hk]
    have hnd : (((d ++ [p]) ++ rest).map Prod.fst).Nodup := by
      rw [List.append_assoc]
      simpa using h
    rw [ih (d ++ [p]) hnd, List.append_assoc]
    rfl

theorem foldl_setAssoc_self (ms : List (String × String))
    (h : (ms.map Prod.fst).Nodup) :
    ms.foldl (fun dd p => setAssoc dd p.1 p.2) [] = ms :=
  foldl_setAssoc_append ms [] (by simpa using h)

theorem renderMembers_cons_head (p : String × String) (l : List (String × String))
    (X : List Char) :
    ∃ y, renderMembers (p :: l) ++ X = Char.ofNat 34 :: y := by
  cases l with
  | nil =>
    show ∃ y, renderEntry p ++ X = _
    unfold renderEntry jsonQuoteChars
    simp only [List.cons_append]
    exact ⟨_, rfl⟩
  | cons q r =>
    show ∃ y, (renderEntry p ++ ',' :: '\n' :: ' ' :: ' ' :: renderMembers (q :: r)) ++ X = _
    unfold renderEntry jsonQuoteChars
    simp only [List.cons_append, List.append_assoc]
    exact ⟨_, rfl⟩

/-- C7: decoding the extractor's json-format output as JSON reproduces the
original property set exactly, key for key and value for value: for every
string-valued property set with unique keys (the dict invariant), running
the JSON object decoder on json.dumps(properties, indent=2) returns exactly
the original property set. -/
theorem C7_json_round_trip (props : List (String × String))
    (h : (props.map Prod.fst).Nodup) :
    json_loads_obj (json_dumps_props props) = some props := by
  cases props with
  | nil => rfl
  | cons p rest =>
    show json_loads_obj (String.mk (lbrace :: '\n' :: ' ' :: ' ' ::
      (renderMembers (p :: rest) ++ '\n' :: [rbrace]))) = _
    unfold json_loads_obj
    rw [show (String.mk (lbrace :: '\n' :: ' ' :: ' ' ::
      (renderMembers (p :: rest) ++ '\n' :: [rbrace]))).data =
      lbrace :: '\n' :: ' ' :: ' ' ::
      (renderMembers (p :: rest) ++ '\n' :: [rbrace]) from rfl]
    rw [skipWs_lbrace]
    show (if lbrace = lbrace then
        match skipWs ('\n' :: ' ' :: ' ' ::
          (renderMembers (p :: rest) ++ '\n' :: [rbrace])) with
        | [] => none
        | c2 :: r2 =>
          if c2 = rbrace then
            if (skipWs r2).isEmpty then some [] else none
          else
            match parseMembersF (('\n' :: ' ' :: ' ' ::
                (renderMembers (p :: rest) ++ '\n' :: [rbrace])).length + 1) (c2 :: r2) with
            | none => none
            | some (ms, rest2) =>
              if (skipWs rest2).isEmpty then
                some (ms.foldl (fun d q => setAssoc d q.1 q.2) [])
              else none
      else none) = some (p :: rest)
    rw [if_pos rfl, skipWs_nl, skipWs_space, skipWs_space, skipWs_renderMembers_cons]
    obtain ⟨y, hy⟩ := renderMembers_cons_head p rest ('\n' :: [rbrace])
    rw [hy]
    show (if Char.ofNat 34 = rbrace then
        if (skipWs y).isEmpty then some [] else none
      else
        match parseMembersF (('\n' :: ' ' :: ' ' :: Char.ofNat 34 :: y).length + 1)
            (Char.ofNat 34 :: y) with
        | none => none
        | some (ms, rest2) =>
          if (skipWs rest2).isEmpty then
            some (ms.foldl (fun d q => setAssoc d q.1 q.2) [])
          else none) = some (p :: rest)
    rw [if_neg (by decide), ← hy]
    have hfuel : (p :: rest).length ≤ ('\n' :: ' ' :: ' ' ::
        (renderMembers (p :: rest) ++ '\n' :: [rbrace])).length + 1 := by
      have h1 := renderMembers_length (p :: rest)
      simp only [List.length_cons, List.length_append] at *
      omega
    rw [parseMembersF_render (p :: rest) [] _ (by simp) hfuel]
    show (if (skipWs ([] : List Char)).isEmpty then
        some ((p :: rest).foldl (fun d q => setAssoc d q.1 q.2) [])
      else none) = some (p :: rest)
    rw [if_pos (by decide), foldl_setAssoc_self (p :: rest) h]

/-- Witness for C7 on a concrete two-property set. -/
theorem C7_witness :
    ([("env", "dev"), ("team", "x")].map Prod.fst).Nodup ∧
    json_loads_obj (json_dumps_props [("env", "dev"), ("team", "x")]) =
      some [("env", "dev"), ("team", "x")] :=
  ⟨by decide, C7_json_round_trip [("env", "dev"), ("team", "x")] (by decide)⟩


end WsoTwo
